import Mathlib

/-!
Verification of the CallerID firmware core (CallerID.ino) against its
natural-language specification.

The definitions below are a shallow embedding of the C source:
* `ring_state` / `add_call` model the call ring buffers
  (`add_call`, lines 286-297, and `eeprom_add_call`, lines 243-256,
  which use the identical index discipline with capacities
  `MAX_CALLS = 200` and `NUM_EEPROM_CALLS`).
* `update_duration` models lines 317-333.
* `matchFrom` / `copyField` model `match` (260-267) and `copy` (269-274).
* `decode` models the packet classification chain of `loop` (613-659),
  threading the global cursor `pktptr` exactly as the C short-circuit
  `&&` chain does.
* `input_loop` models the serial-driven path of `input_string` (378-442).
Machine integers (`short int`, `byte`, array indices) stay well inside
their ranges on all modelled paths, so they are represented as `Nat`/`Int`.
-/

namespace CallerID

/-- MAX_LINES from the source (line 87). -/
def MAX_LINES : Nat := 8

/-- The in-memory ring bookkeeping shared by the RAM call store
(`num_calls`, `oldest`, `newest`, `calls[]`, lines 140-144) and by the
FLASH archive header (`eeprom_hdr.num_calls/oldest/newest` plus the record
area, lines 202-206).  The storage array is modelled as a total function
from slot index to item; only slots below the capacity are ever written. -/
structure ring_state (α : Type) where
  num_calls : Nat
  oldest : Nat
  newest : Nat
  calls : Nat → α

/-- The initial state: zeroed counters and indices (C globals, lines
142-144), with arbitrary initial array content `a`. -/
def ring_init {α : Type} (a : α) : ring_state α :=
  ⟨0, 0, 0, fun _ => a⟩

/-- The compare-and-wrap increment used all over the source:
`if (++x >= MAX) x = 0;`. -/
def wrapInc (C m : Nat) : Nat :=
  if C ≤ m + 1 then 0 else m + 1

/-- The index update of `add_call` (lines 287-292) and `eeprom_add_call`
(lines 244-249): if the store is empty the count just becomes 1 (indices
untouched); otherwise `newest` is incremented with compare-and-wrap, and
either `oldest` is advanced (at capacity, `num_calls >= C`) or the count
grows. -/
def ring_bump {α : Type} (C : Nat) (s : ring_state α) : ring_state α :=
  if s.num_calls = 0 then { s with num_calls := 1 }
  else if C ≤ s.num_calls then
    { s with newest := wrapInc C s.newest, oldest := wrapInc C s.oldest }
  else { s with newest := wrapInc C s.newest, num_calls := s.num_calls + 1 }

/-- One append: the index update followed by a write of the item at the
new `newest` slot (`calls[newest] = ...`, lines 293-297 / 252-255). -/
def add_call {α : Type} (C : Nat) (item : α) (s : ring_state α) : ring_state α :=
  let s1 := ring_bump C s
  { s1 with calls := fun p => if p = s1.newest then item else s1.calls p }

/-- Appending a whole list of items in order. -/
def addList {α : Type} (C : Nat) (s : ring_state α) (xs : List α) : ring_state α :=
  xs.foldl (fun t x => add_call C x t) s

/-- The items currently held by the ring, in arrival order
(walking forward from `oldest` for `num_calls` slots). -/
def heldList {α : Type} (C : Nat) (s : ring_state α) : List α :=
  (List.range s.num_calls).map (fun i => s.calls ((s.oldest + i) % C))

theorem ring_bump_calls {α : Type} (C : Nat) (s : ring_state α) :
    (ring_bump C s).calls = s.calls := by
  unfold ring_bump
  split
  · rfl
  · split <;> rfl

theorem add_call_newest {α : Type} (C : Nat) (x : α) (s : ring_state α) :
    (add_call C x s).newest = (ring_bump C s).newest := rfl

theorem add_call_num_calls {α : Type} (C : Nat) (x : α) (s : ring_state α) :
    (add_call C x s).num_calls = (ring_bump C s).num_calls := rfl

theorem add_call_oldest {α : Type} (C : Nat) (x : α) (s : ring_state α) :
    (add_call C x s).oldest = (ring_bump C s).oldest := rfl

theorem add_call_calls {α : Type} (C : Nat) (x : α) (s : ring_state α) (p : Nat) :
    (add_call C x s).calls p =
      if p = (ring_bump C s).newest then x else s.calls p := by
  show (if p = (ring_bump C s).newest then x else (ring_bump C s).calls p) = _
  rw [ring_bump_calls]

/-- Compare-and-wrap agrees with modular increment below capacity. -/
theorem wrapInc_eq_mod {C m : Nat} (h : m < C) :
    wrapInc C m = (m + 1) % C := by
  unfold wrapInc
  rcases Nat.lt_or_ge (m + 1) C with h1 | h1
  · rw [if_neg (by omega), Nat.mod_eq_of_lt h1]
  · have : m + 1 = C := by omega
    rw [if_pos (by omega), this, Nat.mod_self]

theorem wrapInc_mod_eq_mod {C m : Nat} (hC : 0 < C) :
    wrapInc C (m % C) = (m + 1) % C := by
  rw [wrapInc_eq_mod (Nat.mod_lt _ hC)]
  exact Nat.ModEq.add_right 1 (Nat.mod_modEq m C)

/-- The full state invariant after appending `xs` to the initial ring:
count, both indices, and the content of every slot in the live window
(item `k` of the trace lives at slot `k % C` until overwritten by item
`k + C`). -/
theorem addList_invariant {α : Type} (C : Nat) (hC : 0 < C) (a : α) (xs : List α) :
    (addList C (ring_init a) xs).num_calls = min xs.length C ∧
    (addList C (ring_init a) xs).newest = (xs.length - 1) % C ∧
    (addList C (ring_init a) xs).oldest = (xs.length - C) % C ∧
    ∀ k, k < xs.length → xs.length ≤ k + C →
      (addList C (ring_init a) xs).calls (k % C) = xs.getD k a := by
  induction xs using List.reverseRecOn with
  | nil =>
    refine ⟨by simp [addList, ring_init], by simp [addList, ring_init],
      by simp [addList, ring_init], ?_⟩
    intro k hk
    simp at hk
  | append_singleton xs x ih =>
    have hfold : addList C (ring_init a) (xs ++ [x]) =
        add_call C x (addList C (ring_init a) xs) := by
      simp [addList, List.foldl_append]
    obtain ⟨hcnt, hnew, hold, hcontent⟩ := ih
    rw [hfold]
    generalize hS : addList C (ring_init a) xs = s at hcnt hnew hold hcontent
    simp only [List.length_append, List.length_cons, List.length_nil]
    rcases Nat.eq_zero_or_pos xs.length with hn0 | hnpos
    · -- first-ever append: count := 1, indices untouched (still 0)
      have hxs : xs = [] := List.eq_nil_of_length_eq_zero hn0
      subst hxs
      have hc0 : s.num_calls = 0 := by simpa using hcnt
      have hN : s.newest = 0 := by simpa using hnew
      have hO : s.oldest = 0 := by
        have h1 : (0 - C) % C = 0 := by
          have : 0 - C = 0 := by omega
          rw [this, Nat.zero_mod]
        rw [← h1]
        simpa using hold
      have hbump : ring_bump C s = { s with num_calls := 1 } := by
        simp [ring_bump, hc0]
      refine ⟨?_, ?_, ?_, ?_⟩
      · rw [add_call_num_calls, hbump]
        simp
        omega
      · rw [add_call_newest, hbump]
        simp [hN]
      · rw [add_call_oldest, hbump]
        have : 0 + 1 - C = 0 := by omega
        simp [hO, this]
      · intro k hk _
        simp only [List.length_nil, Nat.zero_add] at hk
        interval_cases k
        rw [add_call_calls, hbump]
        simp [hN, Nat.mod_eq_of_lt hC]
    · -- subsequent append
      have hc0 : s.num_calls ≠ 0 := by rw [hcnt]; omega
      have hnewval : (ring_bump C s).newest = xs.length % C := by
        have hwrap : wrapInc C s.newest = xs.length % C := by
          rw [hnew, wrapInc_mod_eq_mod hC]
          congr 1
          omega
        unfold ring_bump
        rw [if_neg hc0]
        split <;> simpa using hwrap
      rcases Nat.lt_or_ge xs.length C with hlt | hge
      · -- below capacity: count grows, oldest stays
        have hnotfull : ¬ C ≤ s.num_calls := by rw [hcnt]; omega
        have hbump : ring_bump C s =
            { s with newest := wrapInc C s.newest, num_calls := s.num_calls + 1 } := by
          simp [ring_bump, hc0, hnotfull]
        refine ⟨?_, ?_, ?_, ?_⟩
        · rw [add_call_num_calls, hbump]
          simp [hcnt] <;> omega
        · rw [add_call_newest, hnewval]
          congr 1
        · rw [add_call_oldest, hbump]
          simp only [hold]
          have e1 : xs.length - C = 0 := by omega
          have e2 : xs.length + 1 - C = 0 := by omega
          rw [e1, e2]
        · intro k hk hkC
          rcases Nat.lt_or_ge k xs.length with hklt | hkge
          · have hslot : ¬ k % C = (ring_bump C s).newest := by
              rw [hnewval]
              intro heq
              have hdvd : C ∣ xs.length - k := (Nat.modEq_iff_dvd' (by omega)).mp heq
              have : C ≤ xs.length - k ∨ xs.length - k = 0 :=
                (Nat.eq_zero_or_pos _).elim (fun h => Or.inr h)
                  (fun h => Or.inl (Nat.le_of_dvd h hdvd))
              omega
            rw [add_call_calls, if_neg hslot, hcontent k hklt (by omega)]
            rw [List.getD_eq_getElem?_getD, List.getD_eq_getElem?_getD,
              List.getElem?_append_left hklt]
          · have hkn : k = xs.length := by omega
            rw [add_call_calls, hkn, hnewval, if_pos rfl,
              List.getD_eq_getElem?_getD,
              List.getElem?_append_right (Nat.le_refl _)]
            simp
      · -- at capacity: count stays, oldest advances
        have hfull : C ≤ s.num_calls := by rw [hcnt]; omega
        have hbump : ring_bump C s =
            { s with newest := wrapInc C s.newest, oldest := wrapInc C s.oldest } := by
          simp [ring_bump, hc0, hfull]
        refine ⟨?_, ?_, ?_, ?_⟩
        · rw [add_call_num_calls, hbump]
          simp [hcnt] <;> omega
        · rw [add_call_newest, hnewval]
          congr 1
        · rw [add_call_oldest, hbump]
          simp only [hold]
          rw [wrapInc_mod_eq_mod hC]
          congr 1
          omega
        · intro k hk hkC
          rcases Nat.lt_or_ge k xs.length with hklt | hkge
          · have hslot : ¬ k % C = (ring_bump C s).newest := by
              rw [hnewval]
              intro heq
              have hdvd : C ∣ xs.length - k := (Nat.modEq_iff_dvd' (by omega)).mp heq
              have : C ≤ xs.length - k ∨ xs.length - k = 0 :=
                (Nat.eq_zero_or_pos _).elim (fun h => Or.inr h)
                  (fun h => Or.inl (Nat.le_of_dvd h hdvd))
              omega
            rw [add_call_calls, if_neg hslot, hcontent k hklt (by omega)]
            rw [List.getD_eq_getElem?_getD, List.getD_eq_getElem?_getD,
              List.getElem?_append_left hklt]
          · have hkn : k = xs.length := by omega
            rw [add_call_calls, hkn, hnewval, if_pos rfl,
              List.getD_eq_getElem?_getD,
              List.getElem?_append_right (Nat.le_refl _)]
            simp

/-- The held window of the ring after any append trace is the suffix of
the trace starting `capacity` items from its end. -/
theorem heldList_addList {α : Type} (C : Nat) (hC : 0 < C) (a : α) (xs : List α) :
    heldList C (addList C (ring_init a) xs) = xs.drop (xs.length - C) := by
  obtain ⟨hcnt, hnew, hold, hcontent⟩ := addList_invariant C hC a xs
  apply List.ext_getElem
  · simp [heldList, hcnt]
    omega
  · intro i h1 h2
    simp only [heldList, List.getElem_map, List.getElem_range, List.getElem_drop]
    have hi : i < min xs.length C := by
      simpa [heldList, hcnt] using h1
    have hidx : ((addList C (ring_init a) xs).oldest + i) % C =
        (xs.length - C + i) % C := by
      rw [hold]
      exact Nat.ModEq.add_right i (Nat.mod_modEq (xs.length - C) C)
    rw [hidx, hcontent (xs.length - C + i) (by omega) (by omega)]
    rw [List.getD_eq_getElem?_getD, List.getElem?_eq_getElem (by omega)]
    rfl

/-- Modelled from the spec text of C1: the index update specified for one
append on a ring of capacity `C`. -/
def append_step_spec {α : Type} (C : Nat) (s s' : ring_state α) : Prop :=
  (s.num_calls = 0 → s'.num_calls = 1 ∧ s'.newest = 0 ∧ s'.oldest = 0) ∧
  (s.num_calls ≠ 0 →
    s'.newest = (s.newest + 1) % C ∧
    (s.num_calls = C → s'.oldest = (s.oldest + 1) % C ∧ s'.num_calls = C) ∧
    (s.num_calls ≠ C → s'.num_calls = s.num_calls + 1 ∧ s'.oldest = s.oldest))

/-- C1: on every append trace from the initial ring of capacity `C`
(`add_call` with `MAX_CALLS`, and identically `eeprom_add_call` with
`NUM_EEPROM_CALLS`), the count never exceeds `C`; each further append
follows the specified index update (count 0 gives count 1 with both
indices 0, otherwise `newest` advances mod `C` and either `oldest`
advances mod `C` at capacity or the count grows); and after `C + k`
appends the store holds exactly the last `C` items in arrival order. -/
theorem ring_append_correct {α : Type} (C : Nat) (hC : 0 < C) (a x : α) (xs : List α) :
    (addList C (ring_init a) xs).num_calls ≤ C ∧
    append_step_spec C (addList C (ring_init a) xs)
      (add_call C x (addList C (ring_init a) xs)) ∧
    (C ≤ xs.length →
      heldList C (addList C (ring_init a) xs) = xs.drop (xs.length - C) ∧
      (heldList C (addList C (ring_init a) xs)).length = C) := by
  obtain ⟨hcnt, hnew, hold, hcontent⟩ := addList_invariant C hC a xs
  generalize hS : addList C (ring_init a) xs = s at *
  refine ⟨by rw [hcnt]; omega, ⟨?_, ?_⟩, ?_⟩
  · -- empty-store append
    intro hc0
    have hn0 : xs.length = 0 := by
      rw [hcnt] at hc0
      omega
    have hbump : ring_bump C s = { s with num_calls := 1 } := by
      simp [ring_bump, hc0]
    rw [add_call_num_calls, add_call_newest, add_call_oldest, hbump]
    refine ⟨rfl, ?_, ?_⟩
    · rw [hnew, hn0]
      simp
    · rw [hold, hn0]
      have : 0 - C = 0 := by omega
      simp [this]
  · -- non-empty append
    intro hc0
    have hnewlt : s.newest < C := by
      rw [hnew]
      exact Nat.mod_lt _ hC
    have holdlt : s.oldest < C := by
      rw [hold]
      exact Nat.mod_lt _ hC
    have hbn : (ring_bump C s).newest = wrapInc C s.newest := by
      unfold ring_bump
      rw [if_neg hc0]
      split <;> rfl
    refine ⟨?_, ?_, ?_⟩
    · rw [add_call_newest, hbn, wrapInc_eq_mod hnewlt]
    · intro hfull
      have hfull' : C ≤ s.num_calls := by omega
      have hbump : ring_bump C s =
          { s with newest := wrapInc C s.newest, oldest := wrapInc C s.oldest } := by
        simp [ring_bump, hc0, hfull']
      rw [add_call_oldest, add_call_num_calls, hbump]
      exact ⟨wrapInc_eq_mod holdlt, hfull⟩
    · intro hnotfull
      have hcle : s.num_calls ≤ C := by rw [hcnt]; omega
      have hnotfull' : ¬ C ≤ s.num_calls := by omega
      have hbump : ring_bump C s =
          { s with newest := wrapInc C s.newest, num_calls := s.num_calls + 1 } := by
        simp [ring_bump, hc0, hnotfull']
      rw [add_call_num_calls, add_call_oldest, hbump]
      exact ⟨rfl, rfl⟩
  · intro hge
    have hheld : heldList C s = xs.drop (xs.length - C) := by
      rw [← hS]
      exact heldList_addList C hC a xs
    refine ⟨hheld, ?_⟩
    rw [hheld, List.length_drop]
    omega

/-- Witness for C1 at `C = 2` and the trace `[1, 2, 3]`: the held window
is the last two items, in order. -/
theorem ring_append_correct_witness :
    (0 : Nat) < 2 ∧ heldList 2 (addList 2 (ring_init (0 : Nat)) [1, 2, 3]) = [2, 3] := by
  refine ⟨by decide, ?_⟩
  have h := (ring_append_correct 2 (by decide) 0 4 [1, 2, 3]).2.2 (by decide)
  simpa using h.1

/-- The NUL byte terminating C strings. -/
def nulChar : Char := Char.ofNat 0

/-- The characters a C string formally contains: everything before the
first NUL byte. -/
def cString (l : List Char) : List Char :=
  l.takeWhile (fun c => c ≠ nulChar)

/-- Decimal value of a digit string (most significant first). -/
def digitsVal : List Char → Nat → Nat
  | [], acc => acc
  | c :: r, acc => digitsVal r (acc * 10 + (c.toNat - 48))

/-- Model of `sscanf(s, "%d", &x)` (and `"%hd"`, whose values here never
overflow a short): skip leading whitespace, read an optional sign and at
least one decimal digit; fail (`none`, sscanf result 0) otherwise. -/
def sscanf_int (l : List Char) : Option Int :=
  let l1 := l.dropWhile (fun c => c.isWhitespace)
  match l1 with
  | [] => none
  | c :: r =>
    if c = '-' then
      let digs := r.takeWhile (fun d => d.isDigit)
      if digs = [] then none else some (-(digitsVal digs 0 : Int))
    else if c = '+' then
      let digs := r.takeWhile (fun d => d.isDigit)
      if digs = [] then none else some ((digitsVal digs 0 : Int))
    else
      let digs := l1.takeWhile (fun d => d.isDigit)
      if digs = [] then none else some ((digitsVal digs 0 : Int))

/-- `parse_phoneline` (lines 276-282): decimal-parse the 2-byte line
field; values 1..MAX_LINES give the zero-based line, anything else maps
to the last line `MAX_LINES - 1`. -/
def parse_phoneline (pl : List Char) : Nat :=
  match sscanf_int (cString pl) with
  | some n => if 1 ≤ n ∧ n ≤ (MAX_LINES : Int) then (n - 1).toNat else MAX_LINES - 1
  | none => MAX_LINES - 1

/-- C7: the line conversion returns `n - 1` when the 2-byte text parses
as a decimal `n` with `1 <= n <= 8`, returns the last valid index 7 for
every out-of-range or unparseable value, and its result is always in
`[0, 7]`. -/
theorem parse_phoneline_correct (pl : List Char) :
    (∀ n : Int, sscanf_int (cString pl) = some n → 1 ≤ n → n ≤ 8 →
      parse_phoneline pl = (n - 1).toNat) ∧
    (∀ n : Int, sscanf_int (cString pl) = some n → (n < 1 ∨ 8 < n) →
      parse_phoneline pl = 7) ∧
    (sscanf_int (cString pl) = none → parse_phoneline pl = 7) ∧
    parse_phoneline pl ≤ 7 := by
  refine ⟨?_, ?_, ?_, ?_⟩
  · intro n hn h1 h8
    have hcond : 1 ≤ n ∧ n ≤ (MAX_LINES : Int) := by
      refine ⟨h1, ?_⟩
      simp only [MAX_LINES]
      omega
    simp [parse_phoneline, hn, hcond]
  · intro n hn hout
    have hcond : ¬ (1 ≤ n ∧ n ≤ (MAX_LINES : Int)) := by
      simp only [MAX_LINES]
      omega
    simp [parse_phoneline, hn, hcond, MAX_LINES]
    omega
  · intro hn
    simp [parse_phoneline, hn, MAX_LINES]
  · unfold parse_phoneline
    rcases h : sscanf_int (cString pl) with _ | n
    · simp [MAX_LINES]
    · simp only [MAX_LINES]
      split
      · next hcond => omega
      · omega

/-- Witness for C7: the field "03" parses to line number 3 and is mapped
to zero-based line index 2. -/
theorem parse_phoneline_correct_witness :
    sscanf_int (cString ['0', '3']) = some 3 ∧ parse_phoneline ['0', '3'] = 2 := by
  refine ⟨by decide, ?_⟩
  have h := (parse_phoneline_correct ['0', '3']).1 3 (by decide) (by decide) (by decide)
  simpa using h

/-- What the firmware records for each call (`struct call_record_t`,
lines 134-139). -/
structure call_record where
  phoneline : Nat
  seconds : Int
  datetime : List Char
  phonenum : List Char
  callername : List Char
deriving DecidableEq

/-- The backward step of the `update_duration` scan:
`if (--ndx < 0) ndx = MAX_CALLS - 1;` (line 333). -/
def prevIdx (C ndx : Nat) : Nat :=
  if ndx = 0 then C - 1 else ndx - 1

/-- The `while (1)` scan of `update_duration` (lines 327-333), walking
backward from `newest`: stop with the first slot whose `phoneline`
matches, or with nothing once `oldest` is reached.  The C loop is
unbounded; on every well-formed ring (`goodRing`) the walk reaches
`oldest` within `num_calls` steps, so running it with fuel `num_calls`
is exact (the fuel-exhaustion branch is proved unreachable below). -/
def scan_calls (C : Nat) (calls : Nat → call_record) (oldest pl : Nat) :
    Nat → Nat → Option Nat
  | 0, _ => none
  | fuel + 1, ndx =>
    if (calls ndx).phoneline = pl then some ndx
    else if ndx = oldest then none
    else scan_calls C calls oldest pl fuel (prevIdx C ndx)

/-- `update_duration` (lines 317-333): parse the 4-byte seconds field;
on success and a non-empty store, scan backward from `newest` and set
the `seconds` of the first matching record.  The FLASH archive is never
touched here (the code's own comment, lines 320-321). -/
def update_duration (C : Nat) (dur pl : List Char) (s : ring_state call_record) :
    ring_state call_record :=
  match sscanf_int (cString dur) with
  | some seconds =>
    if 0 < s.num_calls then
      match scan_calls C s.calls s.oldest (parse_phoneline pl) s.num_calls s.newest with
      | some ndx =>
        { s with calls := fun p =>
            if p = ndx then { s.calls ndx with seconds := seconds } else s.calls p }
      | none => s
    else s
  | none => s

/-- The slot visited after walking `i` steps backward from `newest`. -/
def walkPos {α : Type} (C : Nat) (s : ring_state α) : Nat → Nat
  | 0 => s.newest
  | i + 1 => prevIdx C (walkPos C s i)

/-- Well-formedness of the ring bookkeeping: the invariant the program
maintains for the states it actually reaches (compare
`addList_invariant`). -/
def goodRing {α : Type} (C : Nat) (s : ring_state α) : Prop :=
  s.num_calls ≤ C ∧ s.oldest < C ∧ s.newest < C ∧
  s.newest = (s.oldest + (s.num_calls - 1)) % C

theorem prevIdx_mod (C : Nat) (hC : 0 < C) (p : Nat) (hp : p < C) :
    prevIdx C p = (p + (C - 1)) % C := by
  unfold prevIdx
  split
  · next h =>
    subst h
    rw [Nat.zero_add, Nat.mod_eq_of_lt (by omega)]
  · next h =>
    have he : p + (C - 1) = (p - 1) + C := by omega
    rw [he, Nat.add_mod_right, Nat.mod_eq_of_lt (by omega)]

theorem walkPos_eq {α : Type} (C : Nat) (hC : 0 < C) (s : ring_state α)
    (hgood : goodRing C s) :
    ∀ i, i < s.num_calls →
      walkPos C s i = (s.oldest + (s.num_calls - 1 - i)) % C := by
  intro i
  induction i with
  | zero =>
    intro _
    simpa [walkPos] using hgood.2.2.2
  | succ i ih =>
    intro hi
    have hi' : i < s.num_calls := by omega
    show prevIdx C (walkPos C s i) = _
    rw [ih hi', prevIdx_mod C hC _ (Nat.mod_lt _ hC)]
    have h1 : ((s.oldest + (s.num_calls - 1 - i)) % C + (C - 1)) % C
        = (s.oldest + (s.num_calls - 1 - i) + (C - 1)) % C :=
      Nat.ModEq.add_right _ (Nat.mod_modEq _ C)
    rw [h1]
    have h2 : s.oldest + (s.num_calls - 1 - i) + (C - 1)
        = (s.oldest + (s.num_calls - 1 - (i + 1))) + C := by omega
    rw [h2, Nat.add_mod_right]

theorem walkPos_eq_oldest {α : Type} (C : Nat) (hC : 0 < C) (s : ring_state α)
    (hgood : goodRing C s) (i : Nat) (hi : i < s.num_calls)
    (h : walkPos C s i = s.oldest) : i = s.num_calls - 1 := by
  rw [walkPos_eq C hC s hgood i hi] at h
  have ho : s.oldest % C = s.oldest := Nat.mod_eq_of_lt hgood.2.1
  have hmod : (s.oldest + (s.num_calls - 1 - i)) % C = s.oldest % C := by
    rw [h, ho]
  have hdvd : C ∣ (s.oldest + (s.num_calls - 1 - i)) - s.oldest :=
    (Nat.modEq_iff_dvd' (by omega)).mp hmod.symm
  have he : (s.oldest + (s.num_calls - 1 - i)) - s.oldest = s.num_calls - 1 - i := by
    omega
  rw [he] at hdvd
  rcases Nat.eq_zero_or_pos (s.num_calls - 1 - i) with h0 | hpos
  · omega
  · have := Nat.le_of_dvd hpos hdvd
    have := hgood.1
    omega

/-- Behaviour of the backward scan with fuel `num_calls`, both for a
trace with no match (it stops at `oldest` and reports none; the fuel
never runs out) and for the least matching walk distance. -/
theorem scan_calls_walk (C : Nat) (hC : 0 < C) (s : ring_state call_record) (pl : Nat)
    (hgood : goodRing C s) :
    ∀ m i, i + m = s.num_calls →
      ((∀ t, i ≤ t → t < s.num_calls →
          (s.calls (walkPos C s t)).phoneline ≠ pl) →
        scan_calls C s.calls s.oldest pl m (walkPos C s i) = none) ∧
      (∀ j, i ≤ j → j < s.num_calls →
        (s.calls (walkPos C s j)).phoneline = pl →
        (∀ t, i ≤ t → t < j → (s.calls (walkPos C s t)).phoneline ≠ pl) →
        scan_calls C s.calls s.oldest pl m (walkPos C s i) = some (walkPos C s j)) := by
  intro m
  induction m with
  | zero =>
    intro i hi
    constructor
    · intro _
      rfl
    · intro j hij hj _ _
      exact absurd hj (by omega)
  | succ m ih =>
    intro i hi
    have hilt : i < s.num_calls := by omega
    constructor
    · intro hno
      simp only [scan_calls, if_neg (hno i (Nat.le_refl i) hilt)]
      by_cases holdp : walkPos C s i = s.oldest
      · rw [if_pos holdp]
      · rw [if_neg holdp]
        have hnext := (ih (i + 1) (by omega)).1
          (fun t ht htc => hno t (by omega) htc)
        simpa [walkPos] using hnext
    · intro j hij hj hmatch hleast
      rcases Nat.eq_or_lt_of_le hij with heq | hlt2
      · subst heq
        simp only [scan_calls, if_pos hmatch]
      · simp only [scan_calls, if_neg (hleast i (Nat.le_refl i) hlt2)]
        have hnotold : ¬ walkPos C s i = s.oldest := by
          intro ho
          have := walkPos_eq_oldest C hC s hgood i hilt ho
          omega
        rw [if_neg hnotold]
        have hnext := (ih (i + 1) (by omega)).2 j (by omega) hj hmatch
          (fun t ht htj => hleast t (by omega) htj)
        simpa [walkPos] using hnext

/-- C2: on every well-formed call-store state with at least one held
record and every call-end event (a parsed seconds value), the scan of
`update_duration` starts at `newest` and walks backward; the count and
both indices are untouched; if no held record (walk distances
`0 .. num_calls - 1`, i.e. down to and including `oldest`) matches the
event's line, the store is completely unchanged; and if the nearest held
record by recency at walk distance `i` matches, exactly that record gets
its `seconds` set, every other slot staying unchanged. -/
theorem update_duration_correct (C : Nat) (hC : 0 < C) (s : ring_state call_record)
    (dur pl : List Char) (secs : Int)
    (hgood : goodRing C s) (hpos : 0 < s.num_calls)
    (hparse : sscanf_int (cString dur) = some secs) :
    ((update_duration C dur pl s).num_calls = s.num_calls ∧
     (update_duration C dur pl s).oldest = s.oldest ∧
     (update_duration C dur pl s).newest = s.newest) ∧
    ((∀ i, i < s.num_calls →
        (s.calls (walkPos C s i)).phoneline ≠ parse_phoneline pl) →
      update_duration C dur pl s = s) ∧
    (∀ i, i < s.num_calls →
      (s.calls (walkPos C s i)).phoneline = parse_phoneline pl →
      (∀ t, t < i → (s.calls (walkPos C s t)).phoneline ≠ parse_phoneline pl) →
      (update_duration C dur pl s).calls (walkPos C s i) =
        { s.calls (walkPos C s i) with seconds := secs } ∧
      ∀ p, p ≠ walkPos C s i → (update_duration C dur pl s).calls p = s.calls p) := by
  have hscan := scan_calls_walk C hC s (parse_phoneline pl) hgood s.num_calls 0 (by omega)
  have hstart : walkPos C s 0 = s.newest := rfl
  refine ⟨?_, ?_, ?_⟩
  · unfold update_duration
    rw [hparse]
    simp only [if_pos hpos]
    rcases h : scan_calls C s.calls s.oldest (parse_phoneline pl) s.num_calls s.newest
      with _ | ndx
    · exact ⟨rfl, rfl, rfl⟩
    · exact ⟨rfl, rfl, rfl⟩
  · intro hno
    have h := hscan.1 (fun t _ htc => hno t htc)
    rw [hstart] at h
    unfold update_duration
    rw [hparse]
    simp only [if_pos hpos, h]
  · intro i hi hmatch hleast
    have h := hscan.2 i (Nat.zero_le i) hi hmatch (fun t _ htj => hleast t htj)
    rw [hstart] at h
    unfold update_duration
    rw [hparse]
    simp only [if_pos hpos, h]
    constructor
    · simp
    · intro p hp
      simp [hp]

/-- Witness for C2: a 3-slot ring holding two records; the end event for
line 0 with seconds field "0005" updates the record at walk distance 1
(slot 0), whose line matches. -/
theorem update_duration_correct_witness :
    (0 : Nat) < 3 ∧
    (update_duration 3 ['0', '0', '0', '5'] ['0', '1']
        ⟨2, 0, 1, fun p => if p = 1 then ⟨7, 0, [], [], []⟩ else ⟨0, 0, [], [], []⟩⟩).calls 0
      = ⟨0, 5, [], [], []⟩ := by
  refine ⟨by decide, ?_⟩
  have h := (update_duration_correct 3 (by decide)
      ⟨2, 0, 1, fun p => if p = 1 then ⟨7, 0, [], [], []⟩ else ⟨0, 0, [], [], []⟩⟩
      ['0', '0', '0', '5'] ['0', '1'] 5
      ⟨by decide, by decide, by decide, by decide⟩ (by decide) (by decide)).2.2 1
      (by decide) (by decide) (fun t ht => by interval_cases t; decide)
  simpa [walkPos, prevIdx] using h.1

/-- `match` (lines 260-267): compare a literal against the packet bytes
at the cursor; on success return the advanced cursor, on the first
mismatch report failure (the C code restores `pktptr`, so the caller
continues from the original position).  The buffer is a total function,
modelling the 255-byte `packet[]` array (bytes at or past `pktlen` are
whatever was left there); on the paths exercised below `match` never
reads at or past `pktlen`. -/
def matchFrom (buf : Nat → Char) : Nat → List Char → Option Nat
  | pos, [] => some pos
  | pos, c :: rest => if buf pos = c then matchFrom buf (pos + 1) rest else none

/-- `copy` (lines 269-274): copy a fixed-width field, taking bytes while
the cursor is below `pktlen` (advancing it) and writing NUL without
advancing once the packet is exhausted.  Returns the field and the new
cursor. -/
def copyField (buf : Nat → Char) (pktlen : Nat) : Nat → Nat → List Char × Nat
  | 0, pos => ([], pos)
  | len + 1, pos =>
    if pos < pktlen then
      let r := copyField buf pktlen len (pos + 1)
      (buf pos :: r.1, r.2)
    else
      let r := copyField buf pktlen len pos
      (nulChar :: r.1, r.2)

theorem copyField_length (buf : Nat → Char) (pktlen : Nat) :
    ∀ len pos, (copyField buf pktlen len pos).1.length = len := by
  intro len
  induction len with
  | zero =>
    intro pos
    rfl
  | succ n ih =>
    intro pos
    by_cases h : pos < pktlen <;> simp [copyField, h, ih]

theorem copyField_getD (buf : Nat → Char) (pktlen : Nat) :
    ∀ len pos i, i < len →
      (copyField buf pktlen len pos).1.getD i nulChar =
        if pos + i < pktlen then buf (pos + i) else nulChar := by
  intro len
  induction len with
  | zero =>
    intro pos i hi
    omega
  | succ n ih =>
    intro pos i hi
    by_cases h : pos < pktlen
    · rcases i with _ | i
      · simp [copyField, h]
      · have := ih (pos + 1) i (by omega)
        simp only [copyField, if_pos h]
        simp only [List.getD_cons_succ]
        rw [this]
        have he : pos + 1 + i = pos + (i + 1) := by omega
        rw [he]
    · rcases i with _ | i
      · simp [copyField, h]
      · have := ih pos i (by omega)
        simp only [copyField, if_neg h]
        simp only [List.getD_cons_succ]
        rw [this, if_neg (by omega), if_neg (by omega)]

theorem copyField_congr (buf buf2 : Nat → Char) (pktlen : Nat)
    (hagree : ∀ j, j < pktlen → buf j = buf2 j) :
    ∀ len pos, copyField buf pktlen len pos = copyField buf2 pktlen len pos := by
  intro len
  induction len with
  | zero =>
    intro pos
    rfl
  | succ n ih =>
    intro pos
    by_cases h : pos < pktlen <;> simp [copyField, h, ih, hagree pos]

/-- C8: every fixed-width field copy produces exactly `len` bytes; byte
`i` of the field is the packet byte at `pos + i` when that position is
strictly below the packet length and NUL otherwise; and the copy depends
only on buffer contents strictly below the packet length (it never reads
past the packet). -/
theorem copy_bounded (buf buf2 : Nat → Char) (pktlen len pos : Nat) :
    (copyField buf pktlen len pos).1.length = len ∧
    (∀ i, i < len →
      (copyField buf pktlen len pos).1.getD i nulChar =
        if pos + i < pktlen then buf (pos + i) else nulChar) ∧
    ((∀ j, j < pktlen → buf j = buf2 j) →
      copyField buf pktlen len pos = copyField buf2 pktlen len pos) :=
  ⟨copyField_length buf pktlen len pos,
   fun i hi => copyField_getD buf pktlen len pos i hi,
   fun h => copyField_congr buf buf2 pktlen h len pos⟩

/-- Witness for C8: copying 2 bytes from a 1-byte packet yields the one
in-range byte and a NUL fill. -/
theorem copy_bounded_witness :
    (1 : Nat) < 2 ∧ (copyField (fun _ => 'a') 1 2 0).1.getD 1 nulChar = nulChar := by
  refine ⟨by decide, ?_⟩
  have h := (copy_bounded (fun _ => 'a') (fun _ => 'a') 1 2 0).2.1 1 (by decide)
  simpa using h

/-- The classification produced for one packet by the chain in `loop`
(lines 613-659). -/
inductive decode_result where
  | malformed (reason : Nat)
  | boot (serialnum : List Char)
  | call_start (phoneline duration atype datetime phonenum callername : List Char)
  | call_end (phoneline duration : List Char)
deriving DecidableEq

def litPreamble : List Char := ['^', '^', '<', 'U', '>']
def litSerial : List Char := ['<', 'S', '>']
def litStart : List Char := ['I', ' ', 'S', ' ']
def litEnd : List Char := ['I', ' ', 'E', ' ']
def litGood : List Char := [' ', 'G', ' ']
def litBad : List Char := [' ', 'B', ' ']

/-- The call-end branch (lines 651-659): tried from wherever the cursor
currently stands; on failure the packet is a bad packet with reason 2. -/
def decode_branch4 (buf : Nat → Char) (pktlen : Nat) (phoneline : List Char)
    (p : Nat) : decode_result :=
  if 70 ≤ pktlen ∧ pktlen ≤ 83 then
    match matchFrom buf p litEnd with
    | some r1 => decode_result.call_end phoneline (copyField buf pktlen 4 r1).1
    | none => decode_result.malformed 2
  else decode_result.malformed 2

/-- The tail of the call-start branch after `" G "`/`" B "` matched at
cursor `q3` (lines 640-645); any literal failure falls into the call-end
branch from the cursor reached so far. -/
def decode_branch3_tail (buf : Nat → Char) (pktlen : Nat)
    (phoneline dur : List Char) (q3 : Nat) : decode_result :=
  match matchFrom buf q3 ['A'] with
  | none => decode_branch4 buf pktlen phoneline q3
  | some q4 =>
    let at1 := copyField buf pktlen 1 q4
    match matchFrom buf at1.2 [' '] with
    | none => decode_branch4 buf pktlen phoneline at1.2
    | some q6 =>
      let dt := copyField buf pktlen 15 q6
      let pn := copyField buf pktlen 15 dt.2
      let cn := copyField buf pktlen 15 pn.2
      decode_result.call_start phoneline dur at1.1 dt.1 pn.1 cn.1

/-- The call-start branch (lines 636-649).  A failed `match` restores the
cursor, but successful matches and `copy` keep it advanced, so the
call-end attempt afterwards starts from wherever this branch stopped. -/
def decode_branch3 (buf : Nat → Char) (pktlen : Nat) (phoneline : List Char)
    (p7 : Nat) : decode_result :=
  if 70 ≤ pktlen ∧ pktlen ≤ 83 then
    match matchFrom buf p7 litStart with
    | none => decode_branch4 buf pktlen phoneline p7
    | some q1 =>
      let dur := copyField buf pktlen 4 q1
      match matchFrom buf dur.2 litGood with
      | some q3 => decode_branch3_tail buf pktlen phoneline dur.1 q3
      | none =>
        match matchFrom buf dur.2 litBad with
        | some q3 => decode_branch3_tail buf pktlen phoneline dur.1 q3
        | none => decode_branch4 buf pktlen phoneline dur.2
  else decode_branch4 buf pktlen phoneline p7

/-- The boot-notice branch (lines 628-634) and fallthrough. -/
def decode_body (buf : Nat → Char) (pktlen : Nat)
    (serialnum phoneline : List Char) (p7 : Nat) : decode_result :=
  if pktlen = 52 then
    match matchFrom buf p7 ['V'] with
    | some _ => decode_result.boot serialnum
    | none => decode_branch3 buf pktlen phoneline p7
  else decode_branch3 buf pktlen phoneline p7

/-- The whole classification chain of `loop` (lines 617-659), starting
with the mandatory preamble (reason 1 on any failure there). -/
def decode (buf : Nat → Char) (pktlen : Nat) : decode_result :=
  if pktlen < 52 then decode_result.malformed 1
  else
    match matchFrom buf 0 litPreamble with
    | none => decode_result.malformed 1
    | some p1 =>
      let unitnum := copyField buf pktlen 6 p1
      match matchFrom buf unitnum.2 litSerial with
      | none => decode_result.malformed 1
      | some p3 =>
        let serialnum := copyField buf pktlen 6 p3
        match matchFrom buf serialnum.2 ['$'] with
        | none => decode_result.malformed 1
        | some p5 =>
          let phoneline := copyField buf pktlen 2 p5
          match matchFrom buf phoneline.2 [' '] with
          | none => decode_result.malformed 1
          | some p7 => decode_body buf pktlen serialnum.1 phoneline.1 p7

/-- A packet buffer holding the received bytes `l`; positions at or past
`l.length` read leftover junk. -/
def bufOf (l : List Char) (junk : Char) : Nat → Char :=
  fun i => l.getD i junk

theorem matchFrom_some_pos (buf : Nat → Char) :
    ∀ (lit : List Char) (pos p : Nat), matchFrom buf pos lit = some p →
      p = pos + lit.length := by
  intro lit
  induction lit with
  | nil =>
    intro pos p h
    simp [matchFrom] at h
    simp only [List.length_nil]
    omega
  | cons c rest ih =>
    intro pos p h
    by_cases hb : buf pos = c
    · simp only [matchFrom, if_pos hb] at h
      have := ih (pos + 1) p h
      simp only [List.length_cons]
      omega
    · simp [matchFrom, hb] at h

theorem copyField_snd (buf : Nat → Char) (pktlen : Nat) :
    ∀ len pos, pos + len ≤ pktlen → (copyField buf pktlen len pos).2 = pos + len := by
  intro len
  induction len with
  | zero =>
    intro pos _
    rfl
  | succ n ih =>
    intro pos h
    have hpos : pos < pktlen := by omega
    simp only [copyField, if_pos hpos]
    have := ih (pos + 1) (by omega)
    rw [this]
    omega

theorem bufOf_byte (junk : Char) (pre : List Char) (c : Char) (post : List Char) :
    bufOf (pre ++ c :: post) junk pre.length = c := by
  unfold bufOf
  rw [List.getD_append_right pre (c :: post) junk pre.length (Nat.le_refl _)]
  simp

theorem matchFrom_bufOf (junk : Char) (pre lit post : List Char) :
    matchFrom (bufOf (pre ++ lit ++ post) junk) pre.length lit
      = some (pre.length + lit.length) := by
  induction lit generalizing pre with
  | nil => simp [matchFrom]
  | cons c rest ih =>
    have hbyte : bufOf (pre ++ (c :: rest) ++ post) junk pre.length = c := by
      have h := bufOf_byte junk pre c (rest ++ post)
      simpa using h
    simp only [matchFrom, hbyte, if_pos rfl]
    have hassoc : pre ++ (c :: rest) ++ post = (pre ++ [c]) ++ rest ++ post := by
      simp
    rw [hassoc]
    have h := ih (pre ++ [c])
    simp only [List.length_append, List.length_cons, List.length_nil] at h ⊢
    rw [h]
    have he : pre.length + 1 + rest.length = pre.length + (rest.length + 1) := by omega
    rw [he]
    simp

theorem copyField_bufOf (junk : Char) (pre field post : List Char) :
    copyField (bufOf (pre ++ field ++ post) junk) (pre ++ field ++ post).length
        field.length pre.length
      = (field, pre.length + field.length) := by
  induction field generalizing pre with
  | nil => simp [copyField]
  | cons c rest ih =>
    have hpos : pre.length < (pre ++ (c :: rest) ++ post).length := by
      simp
    have hbyte : bufOf (pre ++ (c :: rest) ++ post) junk pre.length = c := by
      have h := bufOf_byte junk pre c (rest ++ post)
      simpa using h
    simp only [List.length_cons, copyField, if_pos hpos, hbyte]
    have hassoc : pre ++ (c :: rest) ++ post = (pre ++ [c]) ++ rest ++ post := by
      simp
    rw [hassoc]
    have h := ih (pre ++ [c])
    simp only [List.length_append, List.length_cons, List.length_nil] at h ⊢
    rw [h]
    have he : pre.length + 1 + rest.length = pre.length + (rest.length + 1) := by omega
    rw [he]

theorem getD_eraseIdx_ge {α : Type} (l : List α) (d : α) :
    ∀ i j, i ≤ j → (l.eraseIdx i).getD j d = l.getD (j + 1) d := by
  induction l with
  | nil =>
    intro i j _
    simp [List.eraseIdx]
  | cons a t ih =>
    intro i j hij
    rcases i with _ | i
    · rfl
    · rcases j with _ | j
      · omega
      · show (a :: t.eraseIdx i).getD (j + 1) d = _
        simp only [List.getD_cons_succ]
        exact ih i j (by omega)

/-- Any packet of plausible length whose byte 23 is not the space that
terminates the mandatory preamble is classified malformed with
reason 1: the literal positions of the preamble are fixed (offsets 0-4
`^^<U>`, 11-13 `<S>`, 20 `$`, 23 space), so the final space test always
runs at offset 23. -/
theorem decode_preamble_fail (buf : Nat → Char) (pktlen : Nat)
    (h52 : 52 ≤ pktlen) (h23 : ¬ buf 23 = ' ') :
    decode buf pktlen = decode_result.malformed 1 := by
  simp only [decode]
  rw [if_neg (by omega)]
  rcases hm1 : matchFrom buf 0 litPreamble with _ | p1
  · rfl
  · have hp1 : p1 = 5 := by
      have h := matchFrom_some_pos buf litPreamble 0 p1 hm1
      simpa [litPreamble] using h
    subst hp1
    dsimp only
    rw [copyField_snd buf pktlen 6 5 (by omega)]
    rcases hm2 : matchFrom buf 11 litSerial with _ | p3
    · rfl
    · have hp3 : p3 = 14 := by
        have h := matchFrom_some_pos buf litSerial 11 p3 hm2
        simpa [litSerial] using h
      subst hp3
      dsimp only
      rw [copyField_snd buf pktlen 6 14 (by omega)]
      rcases hm3 : matchFrom buf 20 ['$'] with _ | p5
      · rfl
      · have hp5 : p5 = 21 := by
          have h := matchFrom_some_pos buf ['$'] 20 p5 hm3
          simpa using h
        subst hp5
        dsimp only
        rw [copyField_snd buf pktlen 2 21 (by omega)]
        rcases hm4 : matchFrom buf 23 [' '] with _ | p7
        · rfl
        · simp [matchFrom, h23] at hm4

/-- A byte buffer exactly matching the call-start grammar: preamble with
unit id, serial id, 2-byte line field; then `I S `, the 4-byte duration
field, ` G ` or ` B `, `A` plus the sub-type byte and a space, and the
three 15-byte text fields. -/
def callStartPacket (unit6 ser6 line2 dur4 : List Char) (gb at1 : Char)
    (dt15 pn15 cn15 : List Char) : List Char :=
  litPreamble ++ unit6 ++ litSerial ++ ser6 ++ ['$'] ++ line2 ++ [' ']
    ++ litStart ++ dur4 ++ [' ', gb, ' '] ++ ['A'] ++ [at1] ++ [' ']
    ++ dt15 ++ pn15 ++ cn15

theorem pkt_m1 (unit6 ser6 line2 dur4 dt15 pn15 cn15 : List Char)
    (gb at1 junk : Char)
    (hu : unit6.length = 6) (hs : ser6.length = 6) (hl : line2.length = 2)
    (hd : dur4.length = 4) (hdt : dt15.length = 15) (hpn : pn15.length = 15)
    (hcn : cn15.length = 15) :
    matchFrom (bufOf (callStartPacket unit6 ser6 line2 dur4 gb at1 dt15 pn15 cn15) junk) 0 litPreamble = some 5 := by
  have h := matchFrom_bufOf junk
    (([] : List Char)) litPreamble
    (unit6 ++ litSerial ++ ser6 ++ ['$'] ++ line2 ++ [' '] ++ litStart ++ dur4 ++ [' ', gb, ' '] ++ ['A'] ++ [at1] ++ [' '] ++ dt15 ++ pn15 ++ cn15)
  simpa [callStartPacket, List.append_assoc, litPreamble, litSerial, litStart, litGood, litBad, hu, hs, hl, hd, hdt, hpn, hcn] using h

theorem pkt_c1 (unit6 ser6 line2 dur4 dt15 pn15 cn15 : List Char)
    (gb at1 junk : Char)
    (hu : unit6.length = 6) (hs : ser6.length = 6) (hl : line2.length = 2)
    (hd : dur4.length = 4) (hdt : dt15.length = 15) (hpn : pn15.length = 15)
    (hcn : cn15.length = 15) :
    copyField (bufOf (callStartPacket unit6 ser6 line2 dur4 gb at1 dt15 pn15 cn15) junk) 83 6 5 = (unit6, 11) := by
  have h := copyField_bufOf junk
    (litPreamble) unit6
    (litSerial ++ ser6 ++ ['$'] ++ line2 ++ [' '] ++ litStart ++ dur4 ++ [' ', gb, ' '] ++ ['A'] ++ [at1] ++ [' '] ++ dt15 ++ pn15 ++ cn15)
  simpa [callStartPacket, List.append_assoc, litPreamble, litSerial, litStart, litGood, litBad, hu, hs, hl, hd, hdt, hpn, hcn] using h

theorem pkt_m2 (unit6 ser6 line2 dur4 dt15 pn15 cn15 : List Char)
    (gb at1 junk : Char)
    (hu : unit6.length = 6) (hs : ser6.length = 6) (hl : line2.length = 2)
    (hd : dur4.length = 4) (hdt : dt15.length = 15) (hpn : pn15.length = 15)
    (hcn : cn15.length = 15) :
    matchFrom (bufOf (callStartPacket unit6 ser6 line2 dur4 gb at1 dt15 pn15 cn15) junk) 11 litSerial = some 14 := by
  have h := matchFrom_bufOf junk
    (litPreamble ++ unit6) litSerial
    (ser6 ++ ['$'] ++ line2 ++ [' '] ++ litStart ++ dur4 ++ [' ', gb, ' '] ++ ['A'] ++ [at1] ++ [' '] ++ dt15 ++ pn15 ++ cn15)
  simpa [callStartPacket, List.append_assoc, litPreamble, litSerial, litStart, litGood, litBad, hu, hs, hl, hd, hdt, hpn, hcn] using h

theorem pkt_c2 (unit6 ser6 line2 dur4 dt15 pn15 cn15 : List Char)
    (gb at1 junk : Char)
    (hu : unit6.length = 6) (hs : ser6.length = 6) (hl : line2.length = 2)
    (hd : dur4.length = 4) (hdt : dt15.length = 15) (hpn : pn15.length = 15)
    (hcn : cn15.length = 15) :
    copyField (bufOf (callStartPacket unit6 ser6 line2 dur4 gb at1 dt15 pn15 cn15) junk) 83 6 14 = (ser6, 20) := by
  have h := copyField_bufOf junk
    (litPreamble ++ unit6 ++ litSerial) ser6
    (['$'] ++ line2 ++ [' '] ++ litStart ++ dur4 ++ [' ', gb, ' '] ++ ['A'] ++ [at1] ++ [' '] ++ dt15 ++ pn15 ++ cn15)
  simpa [callStartPacket, List.append_assoc, litPreamble, litSerial, litStart, litGood, litBad, hu, hs, hl, hd, hdt, hpn, hcn] using h

theorem pkt_m3 (unit6 ser6 line2 dur4 dt15 pn15 cn15 : List Char)
    (gb at1 junk : Char)
    (hu : unit6.length = 6) (hs : ser6.length = 6) (hl : line2.length = 2)
    (hd : dur4.length = 4) (hdt : dt15.length = 15) (hpn : pn15.length = 15)
    (hcn : cn15.length = 15) :
    matchFrom (bufOf (callStartPacket unit6 ser6 line2 dur4 gb at1 dt15 pn15 cn15) junk) 20 ['$'] = some 21 := by
  have h := matchFrom_bufOf junk
    (litPreamble ++ unit6 ++ litSerial ++ ser6) ['$']
    (line2 ++ [' '] ++ litStart ++ dur4 ++ [' ', gb, ' '] ++ ['A'] ++ [at1] ++ [' '] ++ dt15 ++ pn15 ++ cn15)
  simpa [callStartPacket, List.append_assoc, litPreamble, litSerial, litStart, litGood, litBad, hu, hs, hl, hd, hdt, hpn, hcn] using h

theorem pkt_c3 (unit6 ser6 line2 dur4 dt15 pn15 cn15 : List Char)
    (gb at1 junk : Char)
    (hu : unit6.length = 6) (hs : ser6.length = 6) (hl : line2.length = 2)
    (hd : dur4.length = 4) (hdt : dt15.length = 15) (hpn : pn15.length = 15)
    (hcn : cn15.length = 15) :
    copyField (bufOf (callStartPacket unit6 ser6 line2 dur4 gb at1 dt15 pn15 cn15) junk) 83 2 21 = (line2, 23) := by
  have h := copyField_bufOf junk
    (litPreamble ++ unit6 ++ litSerial ++ ser6 ++ ['$']) line2
    ([' '] ++ litStart ++ dur4 ++ [' ', gb, ' '] ++ ['A'] ++ [at1] ++ [' '] ++ dt15 ++ pn15 ++ cn15)
  simpa [callStartPacket, List.append_assoc, litPreamble, litSerial, litStart, litGood, litBad, hu, hs, hl, hd, hdt, hpn, hcn] using h

theorem pkt_m4 (unit6 ser6 line2 dur4 dt15 pn15 cn15 : List Char)
    (gb at1 junk : Char)
    (hu : unit6.length = 6) (hs : ser6.length = 6) (hl : line2.length = 2)
    (hd : dur4.length = 4) (hdt : dt15.length = 15) (hpn : pn15.length = 15)
    (hcn : cn15.length = 15) :
    matchFrom (bufOf (callStartPacket unit6 ser6 line2 dur4 gb at1 dt15 pn15 cn15) junk) 23 [' '] = some 24 := by
  have h := matchFrom_bufOf junk
    (litPreamble ++ unit6 ++ litSerial ++ ser6 ++ ['$'] ++ line2) [' ']
    (litStart ++ dur4 ++ [' ', gb, ' '] ++ ['A'] ++ [at1] ++ [' '] ++ dt15 ++ pn15 ++ cn15)
  simpa [callStartPacket, List.append_assoc, litPreamble, litSerial, litStart, litGood, litBad, hu, hs, hl, hd, hdt, hpn, hcn] using h

theorem pkt_m5 (unit6 ser6 line2 dur4 dt15 pn15 cn15 : List Char)
    (gb at1 junk : Char)
    (hu : unit6.length = 6) (hs : ser6.length = 6) (hl : line2.length = 2)
    (hd : dur4.length = 4) (hdt : dt15.length = 15) (hpn : pn15.length = 15)
    (hcn : cn15.length = 15) :
    matchFrom (bufOf (callStartPacket unit6 ser6 line2 dur4 gb at1 dt15 pn15 cn15) junk) 24 litStart = some 28 := by
  have h := matchFrom_bufOf junk
    (litPreamble ++ unit6 ++ litSerial ++ ser6 ++ ['$'] ++ line2 ++ [' ']) litStart
    (dur4 ++ [' ', gb, ' '] ++ ['A'] ++ [at1] ++ [' '] ++ dt15 ++ pn15 ++ cn15)
  simpa [callStartPacket, List.append_assoc, litPreamble, litSerial, litStart, litGood, litBad, hu, hs, hl, hd, hdt, hpn, hcn] using h

theorem pkt_c4 (unit6 ser6 line2 dur4 dt15 pn15 cn15 : List Char)
    (gb at1 junk : Char)
    (hu : unit6.length = 6) (hs : ser6.length = 6) (hl : line2.length = 2)
    (hd : dur4.length = 4) (hdt : dt15.length = 15) (hpn : pn15.length = 15)
    (hcn : cn15.length = 15) :
    copyField (bufOf (callStartPacket unit6 ser6 line2 dur4 gb at1 dt15 pn15 cn15) junk) 83 4 28 = (dur4, 32) := by
  have h := copyField_bufOf junk
    (litPreamble ++ unit6 ++ litSerial ++ ser6 ++ ['$'] ++ line2 ++ [' '] ++ litStart) dur4
    ([' ', gb, ' '] ++ ['A'] ++ [at1] ++ [' '] ++ dt15 ++ pn15 ++ cn15)
  simpa [callStartPacket, List.append_assoc, litPreamble, litSerial, litStart, litGood, litBad, hu, hs, hl, hd, hdt, hpn, hcn] using h

theorem pkt_m7 (unit6 ser6 line2 dur4 dt15 pn15 cn15 : List Char)
    (gb at1 junk : Char)
    (hu : unit6.length = 6) (hs : ser6.length = 6) (hl : line2.length = 2)
    (hd : dur4.length = 4) (hdt : dt15.length = 15) (hpn : pn15.length = 15)
    (hcn : cn15.length = 15) :
    matchFrom (bufOf (callStartPacket unit6 ser6 line2 dur4 gb at1 dt15 pn15 cn15) junk) 35 ['A'] = some 36 := by
  have h := matchFrom_bufOf junk
    (litPreamble ++ unit6 ++ litSerial ++ ser6 ++ ['$'] ++ line2 ++ [' '] ++ litStart ++ dur4 ++ [' ', gb, ' ']) ['A']
    ([at1] ++ [' '] ++ dt15 ++ pn15 ++ cn15)
  simpa [callStartPacket, List.append_assoc, litPreamble, litSerial, litStart, litGood, litBad, hu, hs, hl, hd, hdt, hpn, hcn] using h

theorem pkt_c5 (unit6 ser6 line2 dur4 dt15 pn15 cn15 : List Char)
    (gb at1 junk : Char)
    (hu : unit6.length = 6) (hs : ser6.length = 6) (hl : line2.length = 2)
    (hd : dur4.length = 4) (hdt : dt15.length = 15) (hpn : pn15.length = 15)
    (hcn : cn15.length = 15) :
    copyField (bufOf (callStartPacket unit6 ser6 line2 dur4 gb at1 dt15 pn15 cn15) junk) 83 1 36 = ([at1], 37) := by
  have h := copyField_bufOf junk
    (litPreamble ++ unit6 ++ litSerial ++ ser6 ++ ['$'] ++ line2 ++ [' '] ++ litStart ++ dur4 ++ [' ', gb, ' '] ++ ['A']) [at1]
    ([' '] ++ dt15 ++ pn15 ++ cn15)
  simpa [callStartPacket, List.append_assoc, litPreamble, litSerial, litStart, litGood, litBad, hu, hs, hl, hd, hdt, hpn, hcn] using h

theorem pkt_m8 (unit6 ser6 line2 dur4 dt15 pn15 cn15 : List Char)
    (gb at1 junk : Char)
    (hu : unit6.length = 6) (hs : ser6.length = 6) (hl : line2.length = 2)
    (hd : dur4.length = 4) (hdt : dt15.length = 15) (hpn : pn15.length = 15)
    (hcn : cn15.length = 15) :
    matchFrom (bufOf (callStartPacket unit6 ser6 line2 dur4 gb at1 dt15 pn15 cn15) junk) 37 [' '] = some 38 := by
  have h := matchFrom_bufOf junk
    (litPreamble ++ unit6 ++ litSerial ++ ser6 ++ ['$'] ++ line2 ++ [' '] ++ litStart ++ dur4 ++ [' ', gb, ' '] ++ ['A'] ++ [at1]) [' ']
    (dt15 ++ pn15 ++ cn15)
  simpa [callStartPacket, List.append_assoc, litPreamble, litSerial, litStart, litGood, litBad, hu, hs, hl, hd, hdt, hpn, hcn] using h

theorem pkt_c6 (unit6 ser6 line2 dur4 dt15 pn15 cn15 : List Char)
    (gb at1 junk : Char)
    (hu : unit6.length = 6) (hs : ser6.length = 6) (hl : line2.length = 2)
    (hd : dur4.length = 4) (hdt : dt15.length = 15) (hpn : pn15.length = 15)
    (hcn : cn15.length = 15) :
    copyField (bufOf (callStartPacket unit6 ser6 line2 dur4 gb at1 dt15 pn15 cn15) junk) 83 15 38 = (dt15, 53) := by
  have h := copyField_bufOf junk
    (litPreamble ++ unit6 ++ litSerial ++ ser6 ++ ['$'] ++ line2 ++ [' '] ++ litStart ++ dur4 ++ [' ', gb, ' '] ++ ['A'] ++ [at1] ++ [' ']) dt15
    (pn15 ++ cn15)
  simpa [callStartPacket, List.append_assoc, litPreamble, litSerial, litStart, litGood, litBad, hu, hs, hl, hd, hdt, hpn, hcn] using h

theorem pkt_c7 (unit6 ser6 line2 dur4 dt15 pn15 cn15 : List Char)
    (gb at1 junk : Char)
    (hu : unit6.length = 6) (hs : ser6.length = 6) (hl : line2.length = 2)
    (hd : dur4.length = 4) (hdt : dt15.length = 15) (hpn : pn15.length = 15)
    (hcn : cn15.length = 15) :
    copyField (bufOf (callStartPacket unit6 ser6 line2 dur4 gb at1 dt15 pn15 cn15) junk) 83 15 53 = (pn15, 68) := by
  have h := copyField_bufOf junk
    (litPreamble ++ unit6 ++ litSerial ++ ser6 ++ ['$'] ++ line2 ++ [' '] ++ litStart ++ dur4 ++ [' ', gb, ' '] ++ ['A'] ++ [at1] ++ [' '] ++ dt15) pn15
    (cn15)
  simpa [callStartPacket, List.append_assoc, litPreamble, litSerial, litStart, litGood, litBad, hu, hs, hl, hd, hdt, hpn, hcn] using h

theorem pkt_c8 (unit6 ser6 line2 dur4 dt15 pn15 cn15 : List Char)
    (gb at1 junk : Char)
    (hu : unit6.length = 6) (hs : ser6.length = 6) (hl : line2.length = 2)
    (hd : dur4.length = 4) (hdt : dt15.length = 15) (hpn : pn15.length = 15)
    (hcn : cn15.length = 15) :
    copyField (bufOf (callStartPacket unit6 ser6 line2 dur4 gb at1 dt15 pn15 cn15) junk) 83 15 68 = (cn15, 83) := by
  have h := copyField_bufOf junk
    (litPreamble ++ unit6 ++ litSerial ++ ser6 ++ ['$'] ++ line2 ++ [' '] ++ litStart ++ dur4 ++ [' ', gb, ' '] ++ ['A'] ++ [at1] ++ [' '] ++ dt15 ++ pn15) cn15
    (([] : List Char))
  simpa [callStartPacket, List.append_assoc, litPreamble, litSerial, litStart, litGood, litBad, hu, hs, hl, hd, hdt, hpn, hcn] using h

theorem pkt_m6G (unit6 ser6 line2 dur4 dt15 pn15 cn15 : List Char)
    (gb at1 junk : Char)
    (hu : unit6.length = 6) (hs : ser6.length = 6) (hl : line2.length = 2)
    (hd : dur4.length = 4) (hdt : dt15.length = 15) (hpn : pn15.length = 15)
    (hcn : cn15.length = 15) (hg : gb = 'G') :
    matchFrom (bufOf (callStartPacket unit6 ser6 line2 dur4 gb at1 dt15 pn15 cn15) junk) 32 litGood = some 35 := by
  subst hg
  have h := matchFrom_bufOf junk
    (litPreamble ++ unit6 ++ litSerial ++ ser6 ++ ['$'] ++ line2 ++ [' '] ++ litStart ++ dur4) litGood
    (['A'] ++ [at1] ++ [' '] ++ dt15 ++ pn15 ++ cn15)
  simpa [callStartPacket, List.append_assoc, litPreamble, litSerial, litStart, litGood, litBad, hu, hs, hl, hd, hdt, hpn, hcn] using h

theorem pkt_b32 (unit6 ser6 line2 dur4 dt15 pn15 cn15 : List Char)
    (gb at1 junk : Char)
    (hu : unit6.length = 6) (hs : ser6.length = 6) (hl : line2.length = 2)
    (hd : dur4.length = 4) (hdt : dt15.length = 15) (hpn : pn15.length = 15)
    (hcn : cn15.length = 15) (hg : gb = 'B') :
    bufOf (callStartPacket unit6 ser6 line2 dur4 gb at1 dt15 pn15 cn15) junk 32 = ' ' := by
  subst hg
  have h := bufOf_byte junk
    (litPreamble ++ unit6 ++ litSerial ++ ser6 ++ ['$'] ++ line2 ++ [' '] ++ litStart ++ dur4) ' '
    ('B' :: ' ' :: (['A'] ++ [at1] ++ [' '] ++ dt15 ++ pn15 ++ cn15))
  simpa [callStartPacket, List.append_assoc, bufOf, litPreamble, litSerial, litStart, litGood, litBad, hu, hs, hl, hd, hdt, hpn, hcn] using h

theorem pkt_b33 (unit6 ser6 line2 dur4 dt15 pn15 cn15 : List Char)
    (gb at1 junk : Char)
    (hu : unit6.length = 6) (hs : ser6.length = 6) (hl : line2.length = 2)
    (hd : dur4.length = 4) (hdt : dt15.length = 15) (hpn : pn15.length = 15)
    (hcn : cn15.length = 15) (hg : gb = 'B') :
    bufOf (callStartPacket unit6 ser6 line2 dur4 gb at1 dt15 pn15 cn15) junk 33 = 'B' := by
  subst hg
  have h := bufOf_byte junk
    (litPreamble ++ unit6 ++ litSerial ++ ser6 ++ ['$'] ++ line2 ++ [' '] ++ litStart ++ dur4 ++ [' ']) 'B'
    (' ' :: (['A'] ++ [at1] ++ [' '] ++ dt15 ++ pn15 ++ cn15))
  simpa [callStartPacket, List.append_assoc, bufOf, litPreamble, litSerial, litStart, litGood, litBad, hu, hs, hl, hd, hdt, hpn, hcn] using h

theorem pkt_m6B (unit6 ser6 line2 dur4 dt15 pn15 cn15 : List Char)
    (gb at1 junk : Char)
    (hu : unit6.length = 6) (hs : ser6.length = 6) (hl : line2.length = 2)
    (hd : dur4.length = 4) (hdt : dt15.length = 15) (hpn : pn15.length = 15)
    (hcn : cn15.length = 15) (hg : gb = 'B') :
    matchFrom (bufOf (callStartPacket unit6 ser6 line2 dur4 gb at1 dt15 pn15 cn15) junk) 32 litBad = some 35 := by
  subst hg
  have h := matchFrom_bufOf junk
    (litPreamble ++ unit6 ++ litSerial ++ ser6 ++ ['$'] ++ line2 ++ [' '] ++ litStart ++ dur4) litBad
    (['A'] ++ [at1] ++ [' '] ++ dt15 ++ pn15 ++ cn15)
  simpa [callStartPacket, List.append_assoc, litPreamble, litSerial, litStart, litGood, litBad, hu, hs, hl, hd, hdt, hpn, hcn] using h

theorem pkt_byte24 (unit6 ser6 line2 dur4 dt15 pn15 cn15 : List Char)
    (gb at1 junk : Char)
    (hu : unit6.length = 6) (hs : ser6.length = 6) (hl : line2.length = 2)
    (hd : dur4.length = 4) (hdt : dt15.length = 15) (hpn : pn15.length = 15)
    (hcn : cn15.length = 15) :
    (callStartPacket unit6 ser6 line2 dur4 gb at1 dt15 pn15 cn15).getD 24 junk = 'I' := by
  have h := bufOf_byte junk
    (litPreamble ++ unit6 ++ litSerial ++ ser6 ++ ['$'] ++ line2 ++ [' ']) 'I'
    (' ' :: 'S' :: ' ' :: (dur4 ++ [' ', gb, ' '] ++ ['A'] ++ [at1] ++ [' '] ++ dt15 ++ pn15 ++ cn15))
  simpa [callStartPacket, List.append_assoc, bufOf, litPreamble, litSerial, litStart, litGood, litBad, hu, hs, hl, hd, hdt, hpn, hcn] using h

theorem pkt_length (unit6 ser6 line2 dur4 dt15 pn15 cn15 : List Char)
    (gb at1 junk : Char)
    (hu : unit6.length = 6) (hs : ser6.length = 6) (hl : line2.length = 2)
    (hd : dur4.length = 4) (hdt : dt15.length = 15) (hpn : pn15.length = 15)
    (hcn : cn15.length = 15) :
    (callStartPacket unit6 ser6 line2 dur4 gb at1 dt15 pn15 cn15).length = 83 := by
  simp [callStartPacket, litPreamble, litSerial, litStart, hu, hs, hl, hd, hdt, hpn, hcn]

/-- Stepping lemma: when the whole preamble matches (at its fixed
offsets), `decode` hands over to `decode_body` with the copied serial
and line fields and the cursor at 24. -/
theorem decode_eq_body_of_preamble (buf : Nat → Char) (pktlen : Nat)
    (u s l : List Char) (h52 : 52 ≤ pktlen)
    (hm1 : matchFrom buf 0 litPreamble = some 5)
    (hc1 : copyField buf pktlen 6 5 = (u, 11))
    (hm2 : matchFrom buf 11 litSerial = some 14)
    (hc2 : copyField buf pktlen 6 14 = (s, 20))
    (hm3 : matchFrom buf 20 ['$'] = some 21)
    (hc3 : copyField buf pktlen 2 21 = (l, 23))
    (hm4 : matchFrom buf 23 [' '] = some 24) :
    decode buf pktlen = decode_body buf pktlen s l 24 := by
  simp only [decode, hm1, hc1, hm2, hc2, hm3, hc3, hm4]
  rw [if_neg (by omega)]

theorem decode_body_not52 (buf : Nat → Char) (pktlen : Nat)
    (s l : List Char) (p : Nat) (h : ¬ pktlen = 52) :
    decode_body buf pktlen s l p = decode_branch3 buf pktlen l p := by
  simp only [decode_body, if_neg h]

/-- Stepping lemma: a fully matching call-start branch yields the
call-start event with the copied fields. -/
theorem decode_branch3_start (buf : Nat → Char) (pktlen : Nat)
    (l dur at1f dt pn cn : List Char)
    (p7 q1 q2 q3 q4 q5 q6 q7 q8 q9 : Nat)
    (hrange : 70 ≤ pktlen ∧ pktlen ≤ 83)
    (hm5 : matchFrom buf p7 litStart = some q1)
    (hc4 : copyField buf pktlen 4 q1 = (dur, q2))
    (hgb : matchFrom buf q2 litGood = some q3 ∨
      (matchFrom buf q2 litGood = none ∧ matchFrom buf q2 litBad = some q3))
    (hm7 : matchFrom buf q3 ['A'] = some q4)
    (hc5 : copyField buf pktlen 1 q4 = (at1f, q5))
    (hm8 : matchFrom buf q5 [' '] = some q6)
    (hc6 : copyField buf pktlen 15 q6 = (dt, q7))
    (hc7 : copyField buf pktlen 15 q7 = (pn, q8))
    (hc8 : copyField buf pktlen 15 q8 = (cn, q9)) :
    decode_branch3 buf pktlen l p7 = decode_result.call_start l dur at1f dt pn cn := by
  rcases hgb with hG | ⟨hGn, hB⟩
  · simp only [decode_branch3, if_pos hrange, hm5, hc4, hG,
      decode_branch3_tail, hm7, hc5, hm8, hc6, hc7, hc8]
  · simp only [decode_branch3, if_pos hrange, hm5, hc4, hGn, hB,
      decode_branch3_tail, hm7, hc5, hm8, hc6, hc7, hc8]

theorem matchFrom_litGood_none (buf : Nat → Char) (p : Nat)
    (h : ¬ buf (p + 1) = 'G') :
    matchFrom buf p litGood = none := by
  simp only [litGood, matchFrom]
  by_cases h0 : buf p = ' '
  · rw [if_pos h0, if_neg h]
  · rw [if_neg h0]

/-- C3: a buffer exactly matching the call-start grammar has length 83;
the decoder classifies it as a call-start event whose phone-line,
duration, sub-type, datetime, phone-number and caller-name fields equal
the constructed inputs; and deleting any single byte before the end of
the mandatory preamble (positions 0..23) yields a malformed packet with
reason code 1. -/
theorem decode_call_start (unit6 ser6 line2 dur4 dt15 pn15 cn15 : List Char)
    (gb at1 junk : Char)
    (hu : unit6.length = 6) (hs : ser6.length = 6) (hl : line2.length = 2)
    (hd : dur4.length = 4) (hdt : dt15.length = 15) (hpn : pn15.length = 15)
    (hcn : cn15.length = 15) (hgb : gb = 'G' ∨ gb = 'B') :
    (callStartPacket unit6 ser6 line2 dur4 gb at1 dt15 pn15 cn15).length = 83 ∧
    decode (bufOf (callStartPacket unit6 ser6 line2 dur4 gb at1 dt15 pn15 cn15) junk) (callStartPacket unit6 ser6 line2 dur4 gb at1 dt15 pn15 cn15).length
      = decode_result.call_start line2 dur4 [at1] dt15 pn15 cn15 ∧
    ∀ i, i < 24 →
      decode (bufOf ((callStartPacket unit6 ser6 line2 dur4 gb at1 dt15 pn15 cn15).eraseIdx i) junk) ((callStartPacket unit6 ser6 line2 dur4 gb at1 dt15 pn15 cn15).eraseIdx i).length
        = decode_result.malformed 1 := by
  have hlen := pkt_length unit6 ser6 line2 dur4 dt15 pn15 cn15 gb at1 junk hu hs hl hd hdt hpn hcn
  refine ⟨hlen, ?_, ?_⟩
  · rw [hlen]
    rw [decode_eq_body_of_preamble (bufOf (callStartPacket unit6 ser6 line2 dur4 gb at1 dt15 pn15 cn15) junk) 83 unit6 ser6 line2
      (by omega) (pkt_m1 unit6 ser6 line2 dur4 dt15 pn15 cn15 gb at1 junk hu hs hl hd hdt hpn hcn) (pkt_c1 unit6 ser6 line2 dur4 dt15 pn15 cn15 gb at1 junk hu hs hl hd hdt hpn hcn) (pkt_m2 unit6 ser6 line2 dur4 dt15 pn15 cn15 gb at1 junk hu hs hl hd hdt hpn hcn) (pkt_c2 unit6 ser6 line2 dur4 dt15 pn15 cn15 gb at1 junk hu hs hl hd hdt hpn hcn)
      (pkt_m3 unit6 ser6 line2 dur4 dt15 pn15 cn15 gb at1 junk hu hs hl hd hdt hpn hcn) (pkt_c3 unit6 ser6 line2 dur4 dt15 pn15 cn15 gb at1 junk hu hs hl hd hdt hpn hcn) (pkt_m4 unit6 ser6 line2 dur4 dt15 pn15 cn15 gb at1 junk hu hs hl hd hdt hpn hcn)]
    rw [decode_body_not52 (bufOf (callStartPacket unit6 ser6 line2 dur4 gb at1 dt15 pn15 cn15) junk) 83 ser6 line2 24 (by decide)]
    refine decode_branch3_start (bufOf (callStartPacket unit6 ser6 line2 dur4 gb at1 dt15 pn15 cn15) junk) 83 line2 dur4 [at1]
      dt15 pn15 cn15 24 28 32 35 36 37 38 53 68 83 (by decide)
      (pkt_m5 unit6 ser6 line2 dur4 dt15 pn15 cn15 gb at1 junk hu hs hl hd hdt hpn hcn) (pkt_c4 unit6 ser6 line2 dur4 dt15 pn15 cn15 gb at1 junk hu hs hl hd hdt hpn hcn) ?_ (pkt_m7 unit6 ser6 line2 dur4 dt15 pn15 cn15 gb at1 junk hu hs hl hd hdt hpn hcn) (pkt_c5 unit6 ser6 line2 dur4 dt15 pn15 cn15 gb at1 junk hu hs hl hd hdt hpn hcn)
      (pkt_m8 unit6 ser6 line2 dur4 dt15 pn15 cn15 gb at1 junk hu hs hl hd hdt hpn hcn) (pkt_c6 unit6 ser6 line2 dur4 dt15 pn15 cn15 gb at1 junk hu hs hl hd hdt hpn hcn) (pkt_c7 unit6 ser6 line2 dur4 dt15 pn15 cn15 gb at1 junk hu hs hl hd hdt hpn hcn) (pkt_c8 unit6 ser6 line2 dur4 dt15 pn15 cn15 gb at1 junk hu hs hl hd hdt hpn hcn)
    rcases hgb with hg | hg
    · exact Or.inl (pkt_m6G unit6 ser6 line2 dur4 dt15 pn15 cn15 gb at1 junk hu hs hl hd hdt hpn hcn hg)
    · refine Or.inr ⟨?_, pkt_m6B unit6 ser6 line2 dur4 dt15 pn15 cn15 gb at1 junk hu hs hl hd hdt hpn hcn hg⟩
      refine matchFrom_litGood_none (bufOf (callStartPacket unit6 ser6 line2 dur4 gb at1 dt15 pn15 cn15) junk) 32 ?_
      rw [pkt_b33 unit6 ser6 line2 dur4 dt15 pn15 cn15 gb at1 junk hu hs hl hd hdt hpn hcn hg]
      decide
  · intro i hi
    have hq : ((callStartPacket unit6 ser6 line2 dur4 gb at1 dt15 pn15 cn15).eraseIdx i).length + 1 = 83 := by
      rw [← hlen]
      exact List.length_eraseIdx_add_one (by omega)
    apply decode_preamble_fail
    · omega
    · have h1 : bufOf ((callStartPacket unit6 ser6 line2 dur4 gb at1 dt15 pn15 cn15).eraseIdx i) junk 23 = (callStartPacket unit6 ser6 line2 dur4 gb at1 dt15 pn15 cn15).getD 24 junk := by
        unfold bufOf
        exact getD_eraseIdx_ge (callStartPacket unit6 ser6 line2 dur4 gb at1 dt15 pn15 cn15) junk i 23 (by omega)
      rw [h1, pkt_byte24 unit6 ser6 line2 dur4 dt15 pn15 cn15 gb at1 junk hu hs hl hd hdt hpn hcn]
      decide

/-- Witness for C3, using the shape of the firmware's own test packet
(line 515): round trip at concrete field values. -/
theorem decode_call_start_witness :
    ("123456".toList.length = 6) ∧
    decode
      (bufOf (callStartPacket "123456".toList "654321".toList "01".toList
        "0000".toList 'G' '0' "03/14 10:55 PM ".toList "111 111 1111   ".toList
        "Caller one     ".toList) 'x')
      (callStartPacket "123456".toList "654321".toList "01".toList
        "0000".toList 'G' '0' "03/14 10:55 PM ".toList "111 111 1111   ".toList
        "Caller one     ".toList).length
      = decode_result.call_start "01".toList "0000".toList ['0']
          "03/14 10:55 PM ".toList "111 111 1111   ".toList
          "Caller one     ".toList := by
  refine ⟨by decide, ?_⟩
  exact (decode_call_start "123456".toList "654321".toList "01".toList "0000".toList
    "03/14 10:55 PM ".toList "111 111 1111   ".toList "Caller one     ".toList
    'G' '0' 'x' (by decide) (by decide) (by decide) (by decide) (by decide)
    (by decide) (by decide) (Or.inl rfl)).2.1

/-- Modelled from the spec (section 4.4 item 3 and section 9): branch
matching in which a later branch "restarts parsing from right after the
common preamble" — the call-end attempt starts at the preamble cursor
`p7` no matter how far the call-start attempt advanced.  This definition
follows the spec's words; the source (`loop`, lines 636-655) is compared
against it. -/
def decode_branch3_tail_restart (buf : Nat → Char) (pktlen : Nat)
    (phoneline dur : List Char) (q3 p7 : Nat) : decode_result :=
  match matchFrom buf q3 ['A'] with
  | none => decode_branch4 buf pktlen phoneline p7
  | some q4 =>
    let at1 := copyField buf pktlen 1 q4
    match matchFrom buf at1.2 [' '] with
    | none => decode_branch4 buf pktlen phoneline p7
    | some q6 =>
      let dt := copyField buf pktlen 15 q6
      let pn := copyField buf pktlen 15 dt.2
      let cn := copyField buf pktlen 15 pn.2
      decode_result.call_start phoneline dur at1.1 dt.1 pn.1 cn.1

def decode_branch3_restart (buf : Nat → Char) (pktlen : Nat)
    (phoneline : List Char) (p7 : Nat) : decode_result :=
  if 70 ≤ pktlen ∧ pktlen ≤ 83 then
    match matchFrom buf p7 litStart with
    | none => decode_branch4 buf pktlen phoneline p7
    | some q1 =>
      let dur := copyField buf pktlen 4 q1
      match matchFrom buf dur.2 litGood with
      | some q3 => decode_branch3_tail_restart buf pktlen phoneline dur.1 q3 p7
      | none =>
        match matchFrom buf dur.2 litBad with
        | some q3 => decode_branch3_tail_restart buf pktlen phoneline dur.1 q3 p7
        | none => decode_branch4 buf pktlen phoneline p7
  else decode_branch4 buf pktlen phoneline p7

def decode_body_restart (buf : Nat → Char) (pktlen : Nat)
    (serialnum phoneline : List Char) (p7 : Nat) : decode_result :=
  if pktlen = 52 then
    match matchFrom buf p7 ['V'] with
    | some _ => decode_result.boot serialnum
    | none => decode_branch3_restart buf pktlen phoneline p7
  else decode_branch3_restart buf pktlen phoneline p7

def decode_restart (buf : Nat → Char) (pktlen : Nat) : decode_result :=
  if pktlen < 52 then decode_result.malformed 1
  else
    match matchFrom buf 0 litPreamble with
    | none => decode_result.malformed 1
    | some p1 =>
      let unitnum := copyField buf pktlen 6 p1
      match matchFrom buf unitnum.2 litSerial with
      | none => decode_result.malformed 1
      | some p3 =>
        let serialnum := copyField buf pktlen 6 p3
        match matchFrom buf serialnum.2 ['$'] with
        | none => decode_result.malformed 1
        | some p5 =>
          let phoneline := copyField buf pktlen 2 p5
          match matchFrom buf phoneline.2 [' '] with
          | none => decode_result.malformed 1
          | some p7 => decode_body_restart buf pktlen serialnum.1 phoneline.1 p7

/-- A 70-byte packet whose call-start branch partially matches (`I S `
plus the 4-byte duration copy) and then fails at ` G `/` B `, leaving
the cursor at preamble+8 where the bytes spell `I E 0005`. -/
def pktBranchLeak : List Char :=
  litPreamble ++ ['1', '2', '3', '4', '5', '6'] ++ litSerial
    ++ ['6', '5', '4', '3', '2', '1'] ++ ['$'] ++ ['0', '1'] ++ [' ']
    ++ litStart ++ ['0', '0', '0', '0'] ++ litEnd ++ ['0', '0', '0', '5']
    ++ List.replicate 30 'x'

/-- Counterexample to C4: on `pktBranchLeak` the firmware's chain decodes
a call-end event from the cursor the failed call-start attempt left
behind, while restart-after-preamble semantics (the spec's words) would
classify the packet malformed with reason 2.  The partial match of an
earlier branch therefore does affect the later branch. -/
theorem branch_leak_counterexample :
    decode (bufOf pktBranchLeak 'z') 70
      = decode_result.call_end ['0', '1'] ['0', '0', '0', '5'] ∧
    decode_restart (bufOf pktBranchLeak 'z') 70 = decode_result.malformed 2 ∧
    decode (bufOf pktBranchLeak 'z') 70 ≠ decode_restart (bufOf pktBranchLeak 'z') 70 := by
  refine ⟨by decide, by decide, by decide⟩

theorem matchFrom_cons_some (buf : Nat → Char) (pos : Nat) (c : Char)
    (rest : List Char) (p : Nat) (h : matchFrom buf pos (c :: rest) = some p) :
    buf pos = c ∧ matchFrom buf (pos + 1) rest = some p := by
  by_cases hb : buf pos = c
  · refine ⟨hb, ?_⟩
    simpa [matchFrom, hb] using h
  · simp [matchFrom, hb] at h

/-- C4 amended: the branches are tried in fixed order, but a partial
match inside the call-start branch is carried into the call-end branch
through the shared cursor.  When the call-start branch matches `I S `,
copies the 4-byte duration and fails at ` G `/` B `, the firmware's
call-end attempt matches `I E ` at preamble+8 (offset 32) and yields a
call-end event; restart-after-preamble semantics (`decode_restart`,
modelled from the spec) would instead classify the same packet malformed
with reason 2, because at the preamble cursor the bytes spell `I S `. -/
theorem decode_branch_cursor_leak (buf : Nat → Char) (pktlen : Nat)
    (u s l dur dur2 : List Char)
    (hrange : 70 ≤ pktlen ∧ pktlen ≤ 83)
    (hm1 : matchFrom buf 0 litPreamble = some 5)
    (hc1 : copyField buf pktlen 6 5 = (u, 11))
    (hm2 : matchFrom buf 11 litSerial = some 14)
    (hc2 : copyField buf pktlen 6 14 = (s, 20))
    (hm3 : matchFrom buf 20 ['$'] = some 21)
    (hc3 : copyField buf pktlen 2 21 = (l, 23))
    (hm4 : matchFrom buf 23 [' '] = some 24)
    (hm5 : matchFrom buf 24 litStart = some 28)
    (hc4 : copyField buf pktlen 4 28 = (dur, 32))
    (hgn : matchFrom buf 32 litGood = none)
    (hbn : matchFrom buf 32 litBad = none)
    (hie : matchFrom buf 32 litEnd = some 36)
    (hc9 : copyField buf pktlen 4 36 = (dur2, 40)) :
    decode buf pktlen = decode_result.call_end l dur2 ∧
    decode_restart buf pktlen = decode_result.malformed 2 := by
  have h52 : 52 ≤ pktlen := by omega
  have hnot52 : ¬ pktlen = 52 := by omega
  constructor
  · rw [decode_eq_body_of_preamble buf pktlen u s l h52 hm1 hc1 hm2 hc2 hm3 hc3 hm4,
      decode_body_not52 buf pktlen s l 24 hnot52]
    simp only [decode_branch3, if_pos hrange, hm5, hc4, hgn, hbn,
      decode_branch4, hie, hc9]
  · -- under restart semantics the call-end attempt starts at 24,
    -- where the bytes spell "I S ", so it fails
    have hse : matchFrom buf 24 litEnd = none := by
      have h5 := hm5
      simp only [litStart] at h5
      obtain ⟨b24, h5⟩ := matchFrom_cons_some buf 24 'I' [' ', 'S', ' '] 28 h5
      obtain ⟨b25, h5⟩ := matchFrom_cons_some buf 25 ' ' ['S', ' '] 28 h5
      obtain ⟨b26, _⟩ := matchFrom_cons_some buf 26 'S' [' '] 28 h5
      simp only [litEnd, matchFrom, b24, b25, b26]
      simp
    simp only [decode_restart]
    rw [if_neg (by omega)]
    simp only [hm1, hc1, hm2, hc2, hm3, hc3, hm4, decode_body_restart, if_neg hnot52,
      decode_branch3_restart, if_pos hrange, hm5, hc4, hgn, hbn,
      decode_branch4, if_pos hrange, hse]

/-- Witness for the amended C4 at the concrete packet `pktBranchLeak`. -/
theorem decode_branch_cursor_leak_witness :
    (70 ≤ 70 ∧ 70 ≤ 83) ∧
    decode (bufOf pktBranchLeak 'z') 70
        = decode_result.call_end ['0', '1'] ['0', '0', '0', '5'] ∧
    decode_restart (bufOf pktBranchLeak 'z') 70 = decode_result.malformed 2 := by
  refine ⟨by decide, ?_⟩
  exact decode_branch_cursor_leak (bufOf pktBranchLeak 'z') 70
    ['1', '2', '3', '4', '5', '6'] ['6', '5', '4', '3', '2', '1'] ['0', '1']
    ['0', '0', '0', '0'] ['0', '0', '0', '5'] (by decide) (by decide) (by decide)
    (by decide) (by decide) (by decide) (by decide) (by decide) (by decide)
    (by decide) (by decide) (by decide) (by decide) (by decide)

/-- The record `add_call` (lines 293-297) builds for a decoded
call-start packet: line parsed from the 2-byte field, duration zeroed,
text fields copied. -/
def mk_call_record (pl dt pn cn : List Char) : call_record :=
  { phoneline := parse_phoneline pl, seconds := 0,
    datetime := dt, phonenum := pn, callername := cn }

/-- The store-level state of the firmware: the RAM call ring, the FLASH
archive (header indices plus record area, written and committed together
by `eeprom_add_call`), and the single-slot bad-packet record
(lines 539-555). -/
structure sys_state where
  ram : ring_state call_record
  eeprom : ring_state call_record
  badpacket_count : Nat
  badpacket_length : Nat
  badpacket_type : Nat
  badpacket_data : List Char

/-- A zeroed call record (C globals are zero-initialised). -/
def zeroRecord : call_record := ⟨0, 0, [], [], []⟩

/-- The startup state: zeroed rings, no bad packet recorded. -/
def sys_init : sys_state :=
  ⟨ring_init zeroRecord, ring_init zeroRecord, 0, 0, 0, []⟩

/-- One iteration of `loop`'s packet dispatch (lines 613-659) at the
store level, with RAM capacity `C` (`MAX_CALLS`) and archive capacity
`E` (`NUM_EEPROM_CALLS`): a failed classification records the bad
packet (`badpacket`, lines 542-555); a boot notice only prints; a
call-start appends to the RAM ring and then runs `eeprom_add_call`
(header rewrite plus one record write, then commit); a call-end runs
`update_duration` only.  Display and backlight are out of scope. -/
def loop_step (C E : Nat) (s : sys_state) (buf : Nat → Char) (pktlen : Nat) :
    sys_state :=
  match decode buf pktlen with
  | decode_result.malformed r =>
    { s with badpacket_count := s.badpacket_count + 1,
             badpacket_length := pktlen,
             badpacket_type := r,
             badpacket_data := (List.range pktlen).map buf }
  | decode_result.boot _ => s
  | decode_result.call_start pl _dur _at1 dt pn cn =>
    let r := mk_call_record pl dt pn cn
    { s with ram := add_call C r s.ram, eeprom := add_call E r s.eeprom }
  | decode_result.call_end pl dur =>
    { s with ram := update_duration C dur pl s.ram }

/-- C5: processing a call-end event never modifies the durable archive
(neither its header indices nor any record); a call-start append changes
the archive by exactly one `add_call` — the header indices plus the
single new `newest` slot, whose record carries duration 0 — and every
other slot is untouched; consequently a store whose archive records all
carry zero duration keeps that property across every packet. -/
theorem archive_frame (C E : Nat) (s : sys_state) (buf : Nat → Char) (pktlen : Nat) :
    (∀ pl dur, decode buf pktlen = decode_result.call_end pl dur →
      (loop_step C E s buf pktlen).eeprom = s.eeprom) ∧
    (∀ pl dur at1 dt pn cn,
      decode buf pktlen = decode_result.call_start pl dur at1 dt pn cn →
      (loop_step C E s buf pktlen).eeprom
          = add_call E (mk_call_record pl dt pn cn) s.eeprom ∧
      ((loop_step C E s buf pktlen).eeprom.calls
          ((loop_step C E s buf pktlen).eeprom.newest)).seconds = 0 ∧
      ∀ p, p ≠ (loop_step C E s buf pktlen).eeprom.newest →
        (loop_step C E s buf pktlen).eeprom.calls p = s.eeprom.calls p) ∧
    ((∀ p, (s.eeprom.calls p).seconds = 0) →
      ∀ p, ((loop_step C E s buf pktlen).eeprom.calls p).seconds = 0) := by
  refine ⟨?_, ?_, ?_⟩
  · intro pl dur h
    simp only [loop_step, h]
  · intro pl dur at1 dt pn cn h
    have e1 : (loop_step C E s buf pktlen).eeprom
        = add_call E (mk_call_record pl dt pn cn) s.eeprom := by
      simp only [loop_step, h]
    refine ⟨e1, ?_, ?_⟩
    · rw [e1, add_call_calls, add_call_newest, if_pos rfl]
      rfl
    · intro p hp
      rw [e1] at hp ⊢
      rw [add_call_newest] at hp
      rw [add_call_calls, if_neg hp]
  · intro hz p
    rcases hdec : decode buf pktlen with r | sn | ⟨pl, dur, at1, dt, pn, cn⟩ | ⟨pl, dur⟩
    · have e : (loop_step C E s buf pktlen).eeprom = s.eeprom := by
        simp only [loop_step, hdec]
      rw [e]
      exact hz p
    · have e : (loop_step C E s buf pktlen).eeprom = s.eeprom := by
        simp only [loop_step, hdec]
      rw [e]
      exact hz p
    · have e : (loop_step C E s buf pktlen).eeprom
          = add_call E (mk_call_record pl dt pn cn) s.eeprom := by
        simp only [loop_step, hdec]
      rw [e, add_call_calls]
      by_cases hp : p = (ring_bump E s.eeprom).newest
      · rw [if_pos hp]
        rfl
      · rw [if_neg hp]
        exact hz p
    · have e : (loop_step C E s buf pktlen).eeprom = s.eeprom := by
        simp only [loop_step, hdec]
      rw [e]
      exact hz p

/-- A 70-byte call-end packet for phone line field "01" whose 4-byte
seconds field "abcd" does not parse as a decimal number. -/
def pktBadSeconds : List Char :=
  litPreamble ++ ['1', '2', '3', '4', '5', '6'] ++ litSerial
    ++ ['6', '5', '4', '3', '2', '1'] ++ ['$'] ++ ['0', '1'] ++ [' ']
    ++ litEnd ++ ['a', 'b', 'c', 'd'] ++ List.replicate 38 'x'

/-- Witness for C5: a concrete call-end packet leaves the archive of the
startup state untouched. -/
theorem archive_frame_witness :
    decode (bufOf pktBadSeconds 'z') 70
      = decode_result.call_end ['0', '1'] ['a', 'b', 'c', 'd'] ∧
    (loop_step 200 70 sys_init (bufOf pktBadSeconds 'z') 70).eeprom
      = sys_init.eeprom := by
  refine ⟨by decide, ?_⟩
  exact (archive_frame 200 70 sys_init (bufOf pktBadSeconds 'z') 70).1
    ['0', '1'] ['a', 'b', 'c', 'd'] (by decide)

/-- Counterexample to C6: `pktBadSeconds` reaches the call-end branch
(preamble valid, length 70, `I E ` matched) and its seconds field fails
to parse, yet the firmware does not classify it as malformed: no
bad-packet record is written (the branch condition already succeeded, so
`badpacket(2)` is unreachable; `update_duration` silently returns). -/
theorem badseconds_counterexample :
    decode (bufOf pktBadSeconds 'z') 70
      = decode_result.call_end ['0', '1'] ['a', 'b', 'c', 'd'] ∧
    sscanf_int (cString ['a', 'b', 'c', 'd']) = none ∧
    (loop_step 200 70 sys_init (bufOf pktBadSeconds 'z') 70).badpacket_count = 0 ∧
    ¬ (loop_step 200 70 sys_init (bufOf pktBadSeconds 'z') 70).badpacket_type = 2 := by
  refine ⟨by decide, by decide, by decide, by decide⟩

/-- C6 amended: a packet that reaches the call-end branch and whose
4-byte seconds field does not parse as a decimal integer is silently
dropped: the whole store state — call store, archive, and the bad-packet
record — is left exactly as it was (no malformed classification). -/
theorem call_end_parse_failure_ignored (C E : Nat) (s : sys_state)
    (buf : Nat → Char) (pktlen : Nat) (pl dur : List Char)
    (hdec : decode buf pktlen = decode_result.call_end pl dur)
    (hparse : sscanf_int (cString dur) = none) :
    loop_step C E s buf pktlen = s := by
  simp only [loop_step, hdec, update_duration, hparse]

/-- Witness for the amended C6 at the concrete packet `pktBadSeconds`. -/
theorem call_end_parse_failure_ignored_witness :
    sscanf_int (cString ['a', 'b', 'c', 'd']) = none ∧
    loop_step 200 70 sys_init (bufOf pktBadSeconds 'z') 70 = sys_init := by
  refine ⟨by decide, ?_⟩
  exact call_end_parse_failure_ignored 200 70 sys_init (bufOf pktBadSeconds 'z') 70
    ['0', '1'] ['a', 'b', 'c', 'd'] (by decide) (by decide)

/-- Backspace and delete bytes (line 417: `ch == '\b' || ch == 0x7f`). -/
def bsChar : Char := Char.ofNat 8

def delChar : Char := Char.ofNat 127

/-- The first glyph of the configuration alphabet (line 358): with
`glyph = -1`, `next_glyph()` (lines 371-375) returns `alphabet[0] = 'A'`,
which `input_string` seeds into position 0 before any input arrives
(line 395). -/
def firstGlyph : Char := 'A'

/-- The serial-driven path of `input_string`'s edit loop
(lines 396-438), with no button activity: one pending serial byte is
consumed per iteration (the inner do-loop takes it, `break` skips the
button wait, and a pending byte also ends the inter-column wait without
reseeding a glyph).  A terminator accepts the string as it stands
(line 414); backspace/delete zeroes the tentative byte at the cursor
and, when possible, the previous position, retreating one column net of
the loop's `++input_col` (lines 417-421, 429); any other byte lands at
the cursor, which advances and ends the edit when it reaches the
maximum length (lines 422-424, 429).  An exhausted byte list leaves the
loop blocked on the buttons: `none`. -/
def input_loop (L : Nat) : List Char → Nat → List Char → Option (List Char)
  | _, _, [] => none
  | dst, col, ch :: rest =>
    if ch = '\n' ∨ ch = '\r' then some dst
    else if ch = bsChar ∨ ch = delChar then
      let dst1 := dst.set col nulChar
      if 0 < col then input_loop L (dst1.set (col - 1) nulChar) (col - 1) rest
      else input_loop L dst1 0 rest
    else
      let dst1 := dst.set col ch
      if L ≤ col + 1 then some dst1
      else input_loop L dst1 (col + 1) rest

/-- A fresh configuration edit (no prior value, `*dst == 0`): the string
is zeroed, the cursor starts at 0, and position 0 is seeded with the
first alphabet glyph (lines 392-395), after which the serial bytes are
processed. -/
def input_string_serial (L : Nat) (bytes : List Char) : Option (List Char) :=
  input_loop L (firstGlyph :: List.replicate (L - 1) nulChar) 0 bytes

theorem set_append_length {α : Type} (a : List α) (x : α) (b : List α) (v : α) :
    (a ++ x :: b).set a.length v = a ++ v :: b := by
  induction a with
  | nil => rfl
  | cons h tail ih =>
    show h :: ((tail ++ x :: b).set tail.length v) = h :: (tail ++ v :: b)
    rw [ih]

/-- Typing only ordinary bytes from a mid-edit state (a committed
non-empty prefix, zeros beyond) and then a terminator accepts exactly
the prefix plus the typed bytes, zero-padded. -/
theorem input_loop_typed (L : Nat) (term : Char)
    (hterm : term = '\n' ∨ term = '\r') :
    ∀ (typed done rest : List Char),
      (∀ c ∈ typed, ¬ (c = '\n' ∨ c = '\r') ∧ ¬ (c = bsChar ∨ c = delChar)) →
      1 ≤ done.length →
      done.length + typed.length < L →
      input_loop L (done ++ List.replicate (L - done.length) nulChar) done.length
          (typed ++ term :: rest)
        = some (done ++ typed ++
            List.replicate (L - done.length - typed.length) nulChar) := by
  intro typed
  induction typed with
  | nil =>
    intro done rest _ h1 hL
    simp only [List.nil_append, input_loop, if_pos hterm]
    simp
  | cons c t ih =>
    intro done rest hord h1 hL
    have hc := hord c (by simp)
    have hdst : done ++ List.replicate (L - done.length) nulChar
        = done ++ nulChar :: List.replicate (L - done.length - 1) nulChar := by
      have hreplen : L - done.length = (L - done.length - 1) + 1 := by
        simp only [List.length_cons] at hL
        omega
      conv_lhs => rw [hreplen, List.replicate_succ]
    rw [hdst]
    simp only [List.cons_append, input_loop, if_neg hc.1, if_neg hc.2]
    rw [set_append_length done nulChar _ c]
    simp only [List.length_cons] at hL
    rw [if_neg (by omega : ¬ L ≤ done.length + 1)]
    have hstep : done ++ c :: List.replicate (L - done.length - 1) nulChar
        = (done ++ [c]) ++ List.replicate (L - (done ++ [c]).length) nulChar := by
      have he : L - done.length - 1 = L - (done.length + 1) := by omega
      simp [he, List.append_assoc]
    rw [hstep]
    have hcol : done.length + 1 = (done ++ [c]).length := by simp
    rw [hcol]
    have hih := ih (done ++ [c]) rest (fun x hx => hord x (by simp [hx]))
      (by simp) (by simp; omega)
    refine hih.trans ?_
    have hcnt : L - (done ++ [c]).length - t.length
        = L - done.length - (t.length + 1) := by
      simp
      omega
    rw [hcnt]
    simp [List.append_assoc]

/-- C9 amended: in a fresh edit driven by the byte stream, typing
`1 <= k < L` ordinary bytes followed by a line-terminator byte ends the
edit immediately (any further bytes are irrelevant) and stores exactly
the `k` typed bytes in order, zero-padded to length `L`.  (For `k = 0`
the claim fails: position 0 still holds the seeded first glyph, see the
counterexample.) -/
theorem input_string_serial_typed (L : Nat) (typed rest : List Char) (term : Char)
    (hord : ∀ c ∈ typed, ¬ (c = '\n' ∨ c = '\r') ∧ ¬ (c = bsChar ∨ c = delChar))
    (hterm : term = '\n' ∨ term = '\r')
    (hk1 : 1 ≤ typed.length) (hkL : typed.length < L) :
    input_string_serial L (typed ++ term :: rest)
      = some (typed ++ List.replicate (L - typed.length) nulChar) := by
  rcases typed with _ | ⟨c, t⟩
  · simp at hk1
  · have hc := hord c (by simp)
    unfold input_string_serial
    simp only [List.cons_append, input_loop, if_neg hc.1, if_neg hc.2]
    have hset : (firstGlyph :: List.replicate (L - 1) nulChar).set 0 c
        = c :: List.replicate (L - 1) nulChar := rfl
    rw [hset]
    simp only [List.length_cons] at hkL
    rw [if_neg (by omega : ¬ L ≤ 0 + 1)]
    have hform : c :: List.replicate (L - 1) nulChar
        = [c] ++ List.replicate (L - ([c] : List Char).length) nulChar := by
      simp
    rw [hform]
    have hcol : (0 : Nat) + 1 = ([c] : List Char).length := by simp
    rw [hcol]
    have hih := input_loop_typed L term hterm t [c] rest
      (fun x hx => hord x (by simp [hx])) (by simp) (by simp; omega)
    refine hih.trans ?_
    have hcnt : L - ([c] : List Char).length - t.length
        = L - (t.length + 1) := by
      simp
      omega
    rw [hcnt]
    simp

/-- Counterexample to C9 at `k = 0`: an immediate terminator on a fresh
3-byte edit stores the seeded glyph `A`, not the all-zero string the
claim predicts for zero typed bytes. -/
theorem input_string_empty_counterexample :
    input_string_serial 3 ['\n'] = some ['A', nulChar, nulChar] ∧
    ¬ input_string_serial 3 ['\n'] = some (List.replicate 3 nulChar) := by
  refine ⟨by decide, by decide⟩

/-- Witness for the amended C9: typing "hi" then Enter into a 5-byte
string stores exactly `hi` padded with three zeros. -/
theorem input_string_serial_typed_witness :
    (1 ≤ (['h', 'i'] : List Char).length) ∧
    input_string_serial 5 (['h', 'i'] ++ '\n' :: [])
      = some (['h', 'i'] ++ List.replicate 3 nulChar) := by
  refine ⟨by decide, ?_⟩
  have h := input_string_serial_typed 5 ['h', 'i'] [] '\n'
    (by decide) (Or.inl rfl) (by decide) (by decide)
  simpa using h

/-- C10 amended: a backspace/delete byte arriving with the cursor at
position 0 zeroes the tentative byte at position 0 (and only that
position — every other position reads back unchanged), and the edit
continues with the cursor still at position 0: the transient
`--input_col` to -1 is undone by the loop's `++input_col`, so the cursor
never stays negative. -/
theorem backspace_at_zero (L : Nat) (dst : List Char) (b : Char) (rest : List Char)
    (hb : b = bsChar ∨ b = delChar) :
    input_loop L dst 0 (b :: rest) = input_loop L (dst.set 0 nulChar) 0 rest ∧
    ∀ j, ¬ j = 0 → (dst.set 0 nulChar).getD j nulChar = dst.getD j nulChar := by
  constructor
  · have hnt : ¬ (b = '\n' ∨ b = '\r') := by
      rcases hb with h | h <;> subst h <;> decide
    simp only [input_loop, if_neg hnt, if_pos hb]
    rw [if_neg (by omega : ¬ (0 : Nat) < 0)]
  · intro j hj
    rcases j with _ | j
    · exact absurd rfl hj
    · cases dst
      · rfl
      · rfl

/-- Counterexample to C10 as stated: on a fresh 3-byte edit (cursor at
position 0, seeded glyph `A` at position 0), a backspace changes the
stored content — terminating right after yields the all-zero string,
while terminating without the backspace yields `A`. -/
theorem backspace_at_zero_counterexample :
    input_string_serial 3 [Char.ofNat 8, '\n'] = some [nulChar, nulChar, nulChar] ∧
    input_string_serial 3 ['\n'] = some ['A', nulChar, nulChar] ∧
    ¬ input_string_serial 3 [Char.ofNat 8, '\n'] = input_string_serial 3 ['\n'] := by
  refine ⟨by decide, by decide, by decide⟩

/-- Witness for the amended C10 on a concrete fresh edit state. -/
theorem backspace_at_zero_witness :
    ((Char.ofNat 8) = bsChar ∨ (Char.ofNat 8) = delChar) ∧
    input_loop 3 ['A', nulChar, nulChar] 0 (Char.ofNat 8 :: ['\n'])
      = input_loop 3 (['A', nulChar, nulChar].set 0 nulChar) 0 ['\n'] := by
  refine ⟨Or.inl rfl, ?_⟩
  exact (backspace_at_zero 3 ['A', nulChar, nulChar] (Char.ofNat 8) ['\n']
    (Or.inl rfl)).1

end CallerID
